import Mathlib

/-!
Shallow embedding of the Tribe geneset API resource layer
(`genesets/api/resources.py`) together with proofs about the behaviour of its
operations: tip resolution, version/geneset authorization, annotation
dehydration (grouping and cross-reference modes), geneset creation (slug
uniqueness and initial-version creation), version creation (missing-parent
rejection), forking, soft-delete filtering, and geneset update.

Database rows are modelled as Lean structures, tables as lists of rows, and
Django ORM queries as list operations.  Behaviour that lives in modules not
part of this snapshot (`versions/models.py`, `genesets/models.py`) is modelled
from the specification and marked as such in its doc comment.
-/

set_option autoImplicit false

namespace Tribe

/-- A user's primary key in the `User` table. -/
abbrev UserId := Nat

/-- The requesting actor as seen by the tastypie authorization layer:
`bundle.request.user` may be absent (`None`), an unauthenticated
(anonymous) user, or an authenticated user with a primary key. -/
inductive Actor where
  | missing
  | anonymous
  | auth (id : UserId)
  deriving DecidableEq

/-- A row of the `Share` table (`collaborations.models.Share`): grants
`to_user` edit rights on the geneset, recording who invited them. -/
structure Share where
  geneset : Nat
  from_user : UserId
  to_user : UserId
  deriving DecidableEq

/-- A row of the `Geneset` table (a "collection"). -/
structure Geneset where
  id : Nat
  creator : UserId
  title : String
  abstract : String
  slug : String
  public : Bool
  deleted : Bool
  fork_of : Option Nat
  organism : Nat
  deriving DecidableEq

/-- A row of the `Version` table: an immutable annotation snapshot belonging
to one geneset.  The `annotations` payload is a list of
(gene primary key, publication primary key) pairs. -/
structure Version where
  id : Nat
  geneset : Nat
  creator : UserId
  commit_date : Nat
  description : String
  ver_hash : String
  parent : Option Nat
  annotations : List (Nat × Nat)
  deriving DecidableEq

/-- Models `can_edit_geneset` (resources.py): an authenticated actor may edit
a geneset iff they are its creator or some `Share` row on that geneset names
them as `to_user`. -/
def can_edit_geneset (shares : List Share) (gs : Geneset) (user : Actor) : Bool :=
  match user with
  | .auth u =>
      gs.creator == u ||
        ((shares.filter (fun s => s.geneset == gs.id)).filter
          (fun s => s.to_user == u)).length != 0
  | _ => false

/-- Insertion step of sorting version rows by descending `commit_date`;
models the ORM's ORDER BY commit_date DESC. -/
def insertByCommitDateDesc (v : Version) : List Version → List Version
  | [] => [v]
  | w :: ws =>
      if w.commit_date ≤ v.commit_date then v :: w :: ws
      else w :: insertByCommitDateDesc v ws

/-- Sorting of version rows by descending `commit_date` (insertion sort). -/
def orderByCommitDateDesc : List Version → List Version
  | [] => []
  | v :: vs => insertByCommitDateDesc v (orderByCommitDateDesc vs)

/-- Models `GetTip` (resources.py): filter the `Version` table to the given
geneset, order by descending `commit_date`, keep the first row; `none` when
the query is empty. -/
def GetTip (versions : List Version) (gs : Nat) : Option Version :=
  let vers := (orderByCommitDateDesc
    (versions.filter (fun v => v.geneset == gs))).take 1
  match vers with
  | [] => none
  | v :: _ => some v

theorem mem_insertByCommitDateDesc {a v : Version} {l : List Version} :
    a ∈ insertByCommitDateDesc v l ↔ a = v ∨ a ∈ l := by
  induction l with
  | nil => simp [insertByCommitDateDesc]
  | cons w ws ih =>
      simp only [insertByCommitDateDesc]
      split
      · simp
      · simp only [List.mem_cons, ih]
        tauto

theorem orderByCommitDateDesc_eq_nil {l : List Version} :
    orderByCommitDateDesc l = [] ↔ l = [] := by
  cases l with
  | nil => simp [orderByCommitDateDesc]
  | cons v vs =>
      simp only [orderByCommitDateDesc]
      constructor
      · intro h
        cases hvs : orderByCommitDateDesc vs with
        | nil => rw [hvs] at h; simp [insertByCommitDateDesc] at h
        | cons u us =>
            rw [hvs] at h
            simp only [insertByCommitDateDesc] at h
            split at h <;> simp at h
      · intro h; cases h

theorem orderByCommitDateDesc_head_max :
    ∀ (l : List Version) (v : Version) (rest : List Version),
      orderByCommitDateDesc l = v :: rest →
      v ∈ l ∧ ∀ w ∈ l, w.commit_date ≤ v.commit_date := by
  intro l
  induction l with
  | nil => intro v rest h; simp [orderByCommitDateDesc] at h
  | cons w ws ih =>
      intro v rest h
      simp only [orderByCommitDateDesc] at h
      cases hws : orderByCommitDateDesc ws with
      | nil =>
          rw [hws] at h
          have hwsnil : ws = [] := orderByCommitDateDesc_eq_nil.mp hws
          simp only [insertByCommitDateDesc] at h
          obtain ⟨rfl, -⟩ := List.cons.injEq .. ▸ h
          subst hwsnil
          exact ⟨List.mem_cons_self _ _, by intro x hx; simp at hx; subst hx; exact le_refl _⟩
      | cons u us =>
          rw [hws] at h
          obtain ⟨hu, hmax⟩ := ih u us hws
          simp only [insertByCommitDateDesc] at h
          split at h
          · rename_i hle
            obtain ⟨rfl, -⟩ := List.cons.injEq .. ▸ h
            refine ⟨List.mem_cons_self _ _, ?_⟩
            intro x hx
            rcases List.mem_cons.mp hx with rfl | hx
            · exact le_refl _
            · exact le_trans (hmax x hx) hle
          · rename_i hlt
            obtain ⟨rfl, -⟩ := List.cons.injEq .. ▸ h
            refine ⟨List.mem_cons_of_mem _ hu, ?_⟩
            intro x hx
            rcases List.mem_cons.mp hx with rfl | hx
            · exact le_of_not_le hlt
            · exact hmax x hx

/-- C7: for every collection, `GetTip` returns `none` exactly when the
collection has no versions; otherwise it returns a version belonging to that
collection whose `commit_date` is maximal among the collection's versions
(the first element of the versions ordered by descending `commit_date`). -/
theorem GetTip_max_commit_date (versions : List Version) (gs : Nat) :
    (GetTip versions gs = none ↔
      versions.filter (fun v => v.geneset == gs) = []) ∧
    (∀ v, GetTip versions gs = some v →
      v ∈ versions ∧ v.geneset = gs ∧
      ∀ w ∈ versions, w.geneset = gs → w.commit_date ≤ v.commit_date) := by
  constructor
  · unfold GetTip
    cases h : orderByCommitDateDesc (versions.filter (fun v => v.geneset == gs)) with
    | nil =>
        simp only [h, List.take_nil]
        simpa using orderByCommitDateDesc_eq_nil.mp h
    | cons u us =>
        simp only [h, List.take_cons]
        constructor
        · intro hc; cases hc
        · intro hc
          rw [hc] at h
          simp [orderByCommitDateDesc] at h
  · intro v hv
    unfold GetTip at hv
    cases h : orderByCommitDateDesc (versions.filter (fun w => w.geneset == gs)) with
    | nil => rw [h] at hv; cases hv
    | cons u us =>
        rw [h] at hv
        simp only [List.take_cons, List.take_zero] at hv
        have huv : u = v := by simpa using hv
        rw [← huv]
        obtain ⟨hmem, hmax⟩ := orderByCommitDateDesc_head_max _ u us h
        have hvmem := List.mem_filter.mp hmem
        refine ⟨hvmem.1, by simpa using hvmem.2, ?_⟩
        intro w hw hwgs
        exact hmax w (List.mem_filter.mpr ⟨hw, by simpa using hwgs⟩)

/-- Example version rows used by concrete witnesses. -/
def exVersionA : Version :=
  { id := 1, geneset := 10, creator := 7, commit_date := 5,
    description := "first", ver_hash := "aaa", parent := none,
    annotations := [(1, 2)] }

/-- Second example version row (child of `exVersionA`, later commit). -/
def exVersionB : Version :=
  { id := 2, geneset := 10, creator := 7, commit_date := 9,
    description := "second", ver_hash := "bbb", parent := some 1,
    annotations := [(1, 2), (3, 4)] }

/-- Witness for C7: on a concrete two-version store, `GetTip` returns the
later-committed version, which is maximal. -/
theorem GetTip_max_commit_date_witness :
    exVersionB ∈ [exVersionA, exVersionB] ∧ exVersionB.geneset = 10 ∧
    ∀ w ∈ [exVersionA, exVersionB], w.geneset = 10 →
      w.commit_date ≤ exVersionB.commit_date :=
  (GetTip_max_commit_date [exVersionA, exVersionB] 10).2 exVersionB (by decide)

/-- Foreign-key resolution of a geneset primary key against the `Geneset`
table: first row with that id (ids are unique in a Django table). -/
def getGeneset (genesets : List Geneset) (id : Nat) : Option Geneset :=
  (genesets.filter (fun g => g.id == id)).head?

/-- The ORM join condition of a filter on a related field,
as in the query filter on related genesets that are public:
true iff the version's geneset resolves and is public. -/
def genesetPublicById (genesets : List Geneset) (id : Nat) : Bool :=
  match getGeneset genesets id with
  | some g => g.public
  | none => false

/-- Models `VersionAuthorization.read_list` (resources.py): with no user or an
unauthenticated user, only versions of public genesets; for an authenticated
user, versions whose geneset is shared to the user, or whose creator (the
version's own `creator` column) is the user, or whose geneset is public. -/
def version_read_list (genesets : List Geneset) (shares : List Share)
    (object_list : List Version) (user : Actor) : List Version :=
  match user with
  | .auth u =>
      object_list.filter (fun v =>
        shares.any (fun s => s.geneset == v.geneset && s.to_user == u)
        || v.creator == u
        || genesetPublicById genesets v.geneset)
  | _ => object_list.filter (fun v => genesetPublicById genesets v.geneset)

/-- Models `VersionAuthorization.read_detail` (resources.py): dereference the
version's geneset (`none` models the Python attribute error when the foreign
key does not resolve); allowed iff the geneset is public or
`can_edit_geneset` holds. -/
def version_read_detail (genesets : List Geneset) (shares : List Share)
    (v : Version) (user : Actor) : Option Bool :=
  (getGeneset genesets v.geneset).map (fun g =>
    if g.public then true else can_edit_geneset shares g user)

theorem getGeneset_id {genesets : List Geneset} {i : Nat} {g : Geneset}
    (h : getGeneset genesets i = some g) : g.id = i := by
  unfold getGeneset at h
  have := List.head?_eq_head (l := genesets.filter (fun g => g.id == i))
  cases hl : genesets.filter (fun g => g.id == i) with
  | nil => rw [hl] at h; cases h
  | cons a l =>
      rw [hl] at h
      have ha : a ∈ genesets.filter (fun g => g.id == i) := by
        rw [hl]; exact List.mem_cons_self _ _
      have := (List.mem_filter.mp ha).2
      cases h
      simpa using this

/-- C2 (amended): for any actor, reading a single version is allowed iff the
owning collection is public, or the actor is the collection's creator, or the
actor holds a share on the collection (the inherited read rule); the version
list query, however, admits an authenticated actor's versions by the
version's own creator column (not the collection's creator), so membership in
the list is: collection shared to the actor, or version creator is the actor,
or collection public. -/
theorem version_read_rules (genesets : List Geneset) (shares : List Share)
    (v : Version) (g : Geneset) (u : UserId) (ol : List Version)
    (hg : getGeneset genesets v.geneset = some g) :
    (version_read_detail genesets shares v (.auth u) = some true ↔
      g.public = true ∨ g.creator = u ∨
        ∃ s ∈ shares, s.geneset = v.geneset ∧ s.to_user = u) ∧
    (version_read_detail genesets shares v .anonymous = some true ↔
      g.public = true) ∧
    (version_read_detail genesets shares v .missing = some true ↔
      g.public = true) ∧
    (v ∈ version_read_list genesets shares ol (.auth u) ↔
      v ∈ ol ∧ (g.public = true ∨ v.creator = u ∨
        ∃ s ∈ shares, s.geneset = v.geneset ∧ s.to_user = u)) ∧
    (v ∈ version_read_list genesets shares ol .anonymous ↔
      v ∈ ol ∧ g.public = true) := by
  have hid : g.id = v.geneset := getGeneset_id hg
  have hpub : genesetPublicById genesets v.geneset = g.public := by
    unfold genesetPublicById; rw [hg]
  have hshare : ∀ w : UserId,
      (shares.any (fun s => s.geneset == v.geneset && s.to_user == w)) = true ↔
      ∃ s ∈ shares, s.geneset = v.geneset ∧ s.to_user = w := by
    intro w
    rw [List.any_eq_true]
    constructor
    · rintro ⟨s, hs, hcond⟩
      exact ⟨s, hs, by simpa using hcond⟩
    · rintro ⟨s, hs, h1, h2⟩
      exact ⟨s, hs, by simp [h1, h2]⟩
  have hedit : ∀ w : UserId,
      can_edit_geneset shares g (.auth w) = true ↔
      (g.creator = w ∨ ∃ s ∈ shares, s.geneset = v.geneset ∧ s.to_user = w) := by
    intro w
    unfold can_edit_geneset
    rw [Bool.or_eq_true, beq_iff_eq, bne_iff_ne]
    apply or_congr Iff.rfl
    constructor
    · intro hne
      have hnil : ((shares.filter (fun s => s.geneset == g.id)).filter
          (fun s => s.to_user == w)) ≠ [] := by
        intro hnil
        rw [hnil] at hne
        exact hne rfl
      obtain ⟨s, hs⟩ := List.exists_mem_of_ne_nil _ hnil
      have h1 := List.mem_filter.mp hs
      have h2 := List.mem_filter.mp h1.1
      exact ⟨s, h2.1, by simpa [hid] using h2.2, by simpa using h1.2⟩
    · rintro ⟨s, hs, h1, h2⟩
      intro hlen0
      rw [List.length_eq_zero] at hlen0
      have hmem : s ∈ ((shares.filter (fun s => s.geneset == g.id)).filter
          (fun s => s.to_user == w)) :=
        List.mem_filter.mpr
          ⟨List.mem_filter.mpr ⟨hs, by simp [h1, hid]⟩, by simp [h2]⟩
      rw [hlen0] at hmem
      cases hmem
  refine ⟨?_, ?_, ?_, ?_, ?_⟩
  · unfold version_read_detail
    rw [hg]
    simp only [Option.map_some', Option.some_inj]
    by_cases hp : g.public
    · simp [hp]
    · have hp' : g.public = false := by
        cases hpb : g.public
        · rfl
        · exact absurd hpb hp
      simp [hp', hedit u]
  · unfold version_read_detail
    rw [hg]
    simp only [Option.map_some', Option.some_inj]
    by_cases hp : g.public
    · simp [hp]
    · simp [hp, can_edit_geneset]
  · unfold version_read_detail
    rw [hg]
    simp only [Option.map_some', Option.some_inj]
    by_cases hp : g.public
    · simp [hp]
    · simp [hp, can_edit_geneset]
  · unfold version_read_list
    rw [List.mem_filter]
    constructor
    · rintro ⟨hmem, hcond⟩
      refine ⟨hmem, ?_⟩
      simp only [Bool.or_eq_true] at hcond
      rcases hcond with (hsh | hcr) | hp
      · exact Or.inr (Or.inr ((hshare u).mp hsh))
      · exact Or.inr (Or.inl (by simpa using hcr))
      · exact Or.inl (by rw [hpub] at hp; exact hp)
    · rintro ⟨hmem, hcond⟩
      refine ⟨hmem, ?_⟩
      simp only [Bool.or_eq_true]
      rcases hcond with hp | hcr | hsh
      · exact Or.inr (by rw [hpub]; exact hp)
      · exact Or.inl (Or.inr (by simp [hcr]))
      · exact Or.inl (Or.inl ((hshare u).mpr hsh))
  · unfold version_read_list
    rw [List.mem_filter]
    rw [hpub]
/-- Example private geneset owned by user 1 used by concrete
(counter)examples. -/
def exPrivateGeneset : Geneset :=
  { id := 1, creator := 1, title := "DNA repair", abstract := "",
    slug := "dna-repair", public := false, deleted := false,
    fork_of := none, organism := 9606 }

/-- Example version of `exPrivateGeneset` created by user 2 (a collaborator
whose share may since have been revoked, or the creator of a copied
version). -/
def exOthersVersion : Version :=
  { id := 5, geneset := 1, creator := 2, commit_date := 3,
    description := "v", ver_hash := "ccc", parent := none,
    annotations := [] }

/-- C2 counterexample: user 1 is the creator of the (private, unshared)
collection, so the single-object read rule grants access to the version, yet
the version list query for user 1 does not contain the version (the list rule
tests the version's own creator, which is user 2): `can_access` does not
imply membership in the `can_list` result. -/
theorem version_can_access_not_can_list :
    version_read_detail [exPrivateGeneset] [] exOthersVersion (.auth 1)
        = some true ∧
    exOthersVersion ∉
      version_read_list [exPrivateGeneset] [] [exOthersVersion] (.auth 1) := by
  decide

/-- Witness for C2 (amended) at a concrete store: the creator of a private
unshared collection may read another user's version as a single object, and
that version is in the list result only through none of the three list
conditions, hence absent. -/
theorem version_read_rules_witness :
    (version_read_detail [exPrivateGeneset] [] exOthersVersion (.auth 1)
        = some true ↔
      exPrivateGeneset.public = true ∨ exPrivateGeneset.creator = 1 ∨
        ∃ s ∈ ([] : List Share), s.geneset = exOthersVersion.geneset ∧
          s.to_user = 1) :=
  (version_read_rules [exPrivateGeneset] [] exOthersVersion exPrivateGeneset 1
    [exOthersVersion] (by decide)).1

/-- Models `GenesetAuthorization.read_list` (resources.py): with no user or an
unauthenticated user, only public genesets; for an authenticated user,
genesets shared to the user, or created by the user, or public. -/
def geneset_read_list (shares : List Share) (object_list : List Geneset)
    (user : Actor) : List Geneset :=
  match user with
  | .auth u =>
      object_list.filter (fun g =>
        shares.any (fun s => s.geneset == g.id && s.to_user == u)
        || g.creator == u
        || g.public)
  | _ => object_list.filter (fun g => g.public)

/-- Models `GenesetResource.get_object_list` (resources.py): the base geneset
query set restricted to rows with `deleted=False`, then optionally restricted
to genesets having at least one version committed on or before the
`modified_before` date (a semi-join against the `Version` table). -/
def get_object_list (genesets : List Geneset) (versions : List Version)
    (modified_before : Option Nat) : List Geneset :=
  let obj_list := genesets.filter (fun g => g.deleted == false)
  match modified_before with
  | none => obj_list
  | some d =>
      obj_list.filter (fun g =>
        versions.any (fun v => v.commit_date ≤ d && v.geneset == g.id))

/-- C9: every geneset produced by the list pipeline (base object list, then
optional `modified_before` semi-join, then list authorization) has its
`deleted` tombstone unset, for every actor — in particular for the geneset's
own creator. -/
theorem geneset_list_excludes_deleted (shares : List Share)
    (genesets : List Geneset) (versions : List Version)
    (modified_before : Option Nat) (user : Actor) (g : Geneset)
    (hmem : g ∈ geneset_read_list shares
      (get_object_list genesets versions modified_before) user) :
    g.deleted = false := by
  have hbase : g ∈ get_object_list genesets versions modified_before := by
    unfold geneset_read_list at hmem
    cases user with
    | auth u => exact (List.mem_filter.mp hmem).1
    | missing => exact (List.mem_filter.mp hmem).1
    | anonymous => exact (List.mem_filter.mp hmem).1
  unfold get_object_list at hbase
  cases modified_before with
  | none =>
      simpa using (List.mem_filter.mp hbase).2
  | some d =>
      have := (List.mem_filter.mp (List.mem_filter.mp hbase).1).2
      simpa using this

/-- Example deleted geneset owned by user 1. -/
def exDeletedGeneset : Geneset :=
  { id := 2, creator := 1, title := "old", abstract := "",
    slug := "old", public := true, deleted := true,
    fork_of := none, organism := 9606 }

/-- Witness for C9: on a concrete store holding a live and a deleted geneset,
the geneset the creator's list query returns has `deleted = false` (and the
deleted one is indeed not returned). -/
theorem geneset_list_excludes_deleted_witness :
    exPrivateGeneset.deleted = false ∧
    exDeletedGeneset ∉
      geneset_read_list [] (get_object_list [exPrivateGeneset, exDeletedGeneset]
        [] none) (.auth 1) :=
  ⟨geneset_list_excludes_deleted [] [exPrivateGeneset, exDeletedGeneset] []
    none (.auth 1) exPrivateGeneset (by decide), by decide⟩

/-- A row of the `Gene` table (the columns consulted by this resource
layer). -/
structure Gene where
  id : Nat
  entrezid : Nat
  systematic_name : String
  deriving DecidableEq

/-- A joined row of the `CrossRef` table as selected by
`dehydrate_annotations` (`gene_id`, `id`, the `CrossRefDB` name and `xrid`;
the database URL column is an inert payload column and is not modelled). -/
structure CrossRef where
  id : Nat
  gene_id : Nat
  crossrefdb : String
  xrid : String
  deriving DecidableEq

/-- A row of the `Publication` table (the columns consulted here). -/
structure Pub where
  id : Nat
  pmid : Nat
  title : String
  deriving DecidableEq

/-- A value stored in the `gene_cache` dictionary of
`dehydrate_annotations`: a full gene record (all-available mode and the
default Symbol/Entrez mode) or a single cross-reference record (specific
xrid mode). -/
inductive GeneInfo where
  | full (g : Gene)
  | xref (x : CrossRef)
  deriving DecidableEq

/-- The gene primary key a `gene_cache` value is keyed by. -/
def GeneInfo.geneId : GeneInfo → Nat
  | .full g => g.id
  | .xref x => x.gene_id

/-- Python dict assignment on an insertion-ordered dictionary: replace the
value in place if the key is present, append otherwise. -/
def dictInsert {α : Type} (d : List (Nat × α)) (k : Nat) (v : α) :
    List (Nat × α) :=
  if d.any (fun p => p.1 == k) then
    d.map (fun p => if p.1 == k then (k, v) else p)
  else d ++ [(k, v)]

/-- Python dict lookup on a dictionary maintained by `dictInsert` (keys are
unique, so the first match is the entry). -/
def dictGet {α : Type} (d : List (Nat × α)) (k : Nat) : Option α :=
  ((d.filter (fun p => p.1 == k)).head?).map (fun p => p.2)

/-- Lookup in a dictionary built by iterating over a table and assigning
`cache[key] = value` row by row: the last assignment for a key wins. -/
def dictLast {α : Type} (d : List (Nat × α)) (k : Nat) : Option α :=
  ((d.filter (fun p => p.1 == k)).getLast?).map (fun p => p.2)


theorem dictGet_cons {α : Type} (a : Nat) (b : α) (d : List (Nat × α))
    (k : Nat) :
    dictGet ((a, b) :: d) k = if a == k then some b else dictGet d k := by
  simp only [dictGet, List.filter_cons]
  by_cases h : a = k
  · simp [h]
  · simp [h]

theorem dictGet_replaceValue {α : Type} (k k' : Nat) (v : α)
    (hne : k' ≠ k) :
    ∀ d : List (Nat × α),
      dictGet (d.map (fun p => if p.1 == k then (k, v) else p)) k' =
        dictGet d k' := by
  intro d
  induction d with
  | nil => rfl
  | cons q qs ih =>
      simp only [List.map_cons]
      by_cases hq : q.1 = k
      · have h1 : (k == k') = false := by
          simp only [beq_eq_false_iff_ne, ne_eq]
          exact fun h => hne h.symm
        have h2 : (q.1 == k') = false := by
          simp only [beq_eq_false_iff_ne, ne_eq, hq]
          exact fun h => hne h.symm
        rw [if_pos (by simp [hq]), show ((q.1, q.2) :: qs = q :: qs) from rfl]
        rw [dictGet_cons, dictGet_cons, h1, h2]
        simpa using ih
      · rw [if_neg (by simp [hq])]
        cases q with
        | mk q1 q2 =>
            rw [dictGet_cons, dictGet_cons]
            by_cases hq' : q1 = k'
            · simp [hq']
            · rw [if_neg (by simp [hq']), if_neg (by simp [hq'])]
              simpa using ih

theorem dictGet_append_single {α : Type} (k k' : Nat) (v : α)
    (d : List (Nat × α)) :
    dictGet (d ++ [(k, v)]) k' =
      match dictGet d k' with
      | some w => some w
      | none => if k == k' then some v else none := by
  induction d with
  | nil =>
      simp only [List.nil_append, dictGet_cons]
      by_cases h : k = k'
      · simp [h, dictGet]
      · simp [h, dictGet]
  | cons q qs ih =>
      cases q with
      | mk q1 q2 =>
          rw [List.cons_append, dictGet_cons, dictGet_cons]
          by_cases hq : q1 = k'
          · simp [hq]
          · rw [if_neg (by simp [hq]), if_neg (by simp [hq])]
            exact ih

theorem dictGet_dictInsert_self {α : Type} (d : List (Nat × α)) (k : Nat)
    (v : α) : dictGet (dictInsert d k v) k = some v := by
  unfold dictInsert
  split
  · rename_i hany
    induction d with
    | nil => simp at hany
    | cons q qs ih =>
        cases q with
        | mk q1 q2 =>
            simp only [List.map_cons]
            by_cases hq : q1 = k
            · rw [if_pos (by simp [hq]), dictGet_cons]
              simp
            · rw [if_neg (by simp [hq]), dictGet_cons]
              rw [if_neg (by simp [hq])]
              apply ih
              simp only [List.any_cons] at hany
              rcases Bool.or_eq_true .. ▸ hany with h | h
              · exact absurd (by simpa using h) hq
              · exact h
  · rw [dictGet_append_single]
    cases hd : dictGet d k with
    | some w =>
        rename_i hany
        exfalso
        apply hany
        unfold dictGet at hd
        cases hf : (d.filter (fun p => p.1 == k)) with
        | nil => rw [hf] at hd; cases hd
        | cons p ps =>
            have hp : p ∈ d.filter (fun q => q.1 == k) := by
              rw [hf]; exact List.mem_cons_self _ _
            have := List.mem_filter.mp hp
            exact List.any_eq_true.mpr ⟨p, this.1, this.2⟩
    | none => simp

theorem dictGet_dictInsert_ne {α : Type} (d : List (Nat × α)) (k k' : Nat)
    (v : α) (hne : k' ≠ k) :
    dictGet (dictInsert d k v) k' = dictGet d k' := by
  unfold dictInsert
  split
  · exact dictGet_replaceValue k k' v hne d
  · rw [dictGet_append_single]
    cases hd : dictGet d k' with
    | some w => rfl
    | none =>
        rw [if_neg (by simp; exact fun h => hne h.symm)]

/-- One iteration of the `results` loop of `dehydrate_annotations`
(resources.py): on pair `(gene, pub)`, append the cached publication to the
gene's group; a missed `results` lookup starts a new group; a missed
`pub_cache` lookup inside either attempt falls through to assigning the empty
list (the nested KeyError handlers). -/
def groupStep (pubCache : Nat → Option Pub) (results : List (Nat × List Pub))
    (ann : Nat × Nat) : List (Nat × List Pub) :=
  match dictGet results ann.1, pubCache ann.2 with
  | some acc, some p => dictInsert results ann.1 (acc ++ [p])
  | some _, none => dictInsert results ann.1 []
  | none, some p => dictInsert results ann.1 [p]
  | none, none => dictInsert results ann.1 []

/-- The `results` dictionary of `dehydrate_annotations`: the annotation pairs
folded through `groupStep`, starting from the empty dict. -/
def groupAnnotations (pubCache : Nat → Option Pub)
    (anns : List (Nat × Nat)) : List (Nat × List Pub) :=
  anns.foldl (groupStep pubCache) []

/-- The publication identifiers of the pairs mentioning gene `g`, in pair
order. -/
def pubsFor (g : Nat) (anns : List (Nat × Nat)) : List Nat :=
  (anns.filter (fun a => a.1 == g)).map (fun a => a.2)

/-- The evolution of one gene's group over its publication identifiers: a
resolved identifier appends its record, an unresolved one resets the group to
empty. -/
def applyPubs (pubCache : Nat → Option Pub) (init : List Pub)
    (L : List Nat) : List Pub :=
  L.foldl (fun acc p =>
    match pubCache p with
    | some q => acc ++ [q]
    | none => []) init

/-- The longest suffix of `L` all of whose identifiers resolve in the
publication cache. -/
def suffixResolved (pubCache : Nat → Option Pub) (L : List Nat) : List Nat :=
  (L.reverse.takeWhile (fun p => (pubCache p).isSome)).reverse

theorem applyPubs_append (pubCache : Nat → Option Pub) (init : List Pub)
    (L1 L2 : List Nat) :
    applyPubs pubCache init (L1 ++ L2) =
      applyPubs pubCache (applyPubs pubCache init L1) L2 :=
  List.foldl_append ..

theorem applyPubs_eq_suffix (pubCache : Nat → Option Pub) (L : List Nat) :
    applyPubs pubCache [] L =
      (suffixResolved pubCache L).filterMap pubCache := by
  induction L using List.reverseRecOn with
  | nil => rfl
  | append_singleton L p ih =>
      rw [applyPubs_append]
      cases hc : pubCache p with
      | some q =>
          have hsuffix : suffixResolved pubCache (L ++ [p]) =
              suffixResolved pubCache L ++ [p] := by
            unfold suffixResolved
            rw [List.reverse_append]
            simp [List.takeWhile_cons, hc]
          have hstep : applyPubs pubCache (applyPubs pubCache [] L) [p] =
              applyPubs pubCache [] L ++ [q] := by
            conv_lhs => rw [show (applyPubs pubCache (applyPubs pubCache [] L)
              [p] = match pubCache p with
              | some q => applyPubs pubCache [] L ++ [q]
              | none => []) from rfl]
            rw [hc]
          rw [hsuffix, List.filterMap_append, hstep, ih]
          simp [hc]
      | none =>
          have hsuffix : suffixResolved pubCache (L ++ [p]) = [] := by
            unfold suffixResolved
            rw [List.reverse_append]
            simp [List.takeWhile_cons, hc]
          rw [hsuffix]
          simp [applyPubs, hc]

theorem dictGet_groupStep_self (pubCache : Nat → Option Pub)
    (d : List (Nat × List Pub)) (a : Nat × Nat) :
    dictGet (groupStep pubCache d a) a.1 =
      some (applyPubs pubCache ((dictGet d a.1).getD []) [a.2]) := by
  unfold groupStep
  cases hg : dictGet d a.1 with
  | some acc =>
      cases hc : pubCache a.2 with
      | some p => rw [dictGet_dictInsert_self]; simp [applyPubs, hc]
      | none => rw [dictGet_dictInsert_self]; simp [applyPubs, hc]
  | none =>
      cases hc : pubCache a.2 with
      | some p => rw [dictGet_dictInsert_self]; simp [applyPubs, hc]
      | none => rw [dictGet_dictInsert_self]; simp [applyPubs, hc]

theorem dictGet_groupStep_ne (pubCache : Nat → Option Pub)
    (d : List (Nat × List Pub)) (a : Nat × Nat) (g : Nat) (hne : g ≠ a.1) :
    dictGet (groupStep pubCache d a) g = dictGet d g := by
  unfold groupStep
  cases dictGet d a.1 with
  | some acc =>
      cases pubCache a.2 with
      | some p => exact dictGet_dictInsert_ne _ _ _ _ hne
      | none => exact dictGet_dictInsert_ne _ _ _ _ hne
  | none =>
      cases pubCache a.2 with
      | some p => exact dictGet_dictInsert_ne _ _ _ _ hne
      | none => exact dictGet_dictInsert_ne _ _ _ _ hne

theorem pubsFor_eq_nil_of_not_any (g : Nat) (anns : List (Nat × Nat))
    (h : anns.any (fun a => a.1 == g) = false) : pubsFor g anns = [] := by
  unfold pubsFor
  have : anns.filter (fun a => a.1 == g) = [] := by
    rw [List.filter_eq_nil_iff]
    intro a ha
    have := List.any_eq_false.mp h a ha
    simpa using this
  rw [this]
  rfl

theorem dictGet_foldl_groupStep (pubCache : Nat → Option Pub) :
    ∀ (anns : List (Nat × Nat)) (d : List (Nat × List Pub)) (g : Nat),
      dictGet (anns.foldl (groupStep pubCache) d) g =
        if anns.any (fun a => a.1 == g) then
          some (applyPubs pubCache ((dictGet d g).getD [])
            (pubsFor g anns))
        else dictGet d g := by
  intro anns
  induction anns with
  | nil => intro d g; simp [pubsFor]
  | cons a rest ih =>
      intro d g
      rw [List.foldl_cons, ih]
      by_cases hag : a.1 = g
      · have hcons : ((a :: rest).any (fun x => x.1 == g)) = true := by
          simp [hag]
        rw [hcons, if_pos rfl]
        have hpf : pubsFor g (a :: rest) = a.2 :: pubsFor g rest := by
          unfold pubsFor
          rw [List.filter_cons, if_pos (by simp [hag])]
          rfl
        have hself : dictGet (groupStep pubCache d a) g =
            some (applyPubs pubCache ((dictGet d g).getD []) [a.2]) := by
          rw [← hag]
          exact dictGet_groupStep_self pubCache d a
        by_cases hrest : rest.any (fun x => x.1 == g)
        · rw [if_pos hrest, hself, hpf]
          simp only [Option.getD_some]
          rfl
        · rw [if_neg hrest, hself, hpf]
          rw [pubsFor_eq_nil_of_not_any g rest (Bool.eq_false_iff.mpr hrest)]
      · have hcons : ((a :: rest).any (fun x => x.1 == g)) =
            rest.any (fun x => x.1 == g) := by
          simp only [List.any_cons]
          rw [show ((a.1 == g) = false) from by simp [hag]]
          rfl
        have hne : dictGet (groupStep pubCache d a) g = dictGet d g :=
          dictGet_groupStep_ne pubCache d a g (fun h => hag h.symm)
        have hpf : pubsFor g (a :: rest) = pubsFor g rest := by
          unfold pubsFor
          rw [List.filter_cons, if_neg (by simp [hag])]
        rw [hcons, hne, hpf]

/-- The keys of a dict maintained by `dictInsert` stay duplicate-free. -/
theorem dictInsert_keys_nodup {α : Type} (d : List (Nat × α)) (k : Nat)
    (v : α) (h : (d.map Prod.fst).Nodup) :
    ((dictInsert d k v).map Prod.fst).Nodup := by
  unfold dictInsert
  split
  · have hkeys : (d.map (fun p => if p.1 == k then (k, v) else p)).map
        Prod.fst = d.map Prod.fst := by
      rw [List.map_map]
      apply List.map_congr_left
      intro p _
      by_cases hp : p.1 = k
      · simp [hp]
      · simp [hp]
    rw [hkeys]
    exact h
  · rename_i hany
    rw [List.map_append]
    simp only [List.map_cons, List.map_nil]
    rw [List.nodup_append]
    refine ⟨h, List.nodup_singleton _, ?_⟩
    intro x hx hk
    simp only [List.mem_singleton] at hk
    subst hk
    obtain ⟨p, hp, hpk⟩ := List.mem_map.mp hx
    exact hany (List.any_eq_true.mpr ⟨p, hp, by simp [hpk]⟩)

theorem groupStep_keys_nodup (pubCache : Nat → Option Pub)
    (d : List (Nat × List Pub)) (a : Nat × Nat)
    (h : (d.map Prod.fst).Nodup) :
    ((groupStep pubCache d a).map Prod.fst).Nodup := by
  unfold groupStep
  cases dictGet d a.1 with
  | some acc =>
      cases pubCache a.2 with
      | some p => exact dictInsert_keys_nodup _ _ _ h
      | none => exact dictInsert_keys_nodup _ _ _ h
  | none =>
      cases pubCache a.2 with
      | some p => exact dictInsert_keys_nodup _ _ _ h
      | none => exact dictInsert_keys_nodup _ _ _ h

theorem foldl_groupStep_keys_nodup (pubCache : Nat → Option Pub) :
    ∀ (anns : List (Nat × Nat)) (d : List (Nat × List Pub)),
      (d.map Prod.fst).Nodup →
      (((anns.foldl (groupStep pubCache) d)).map Prod.fst).Nodup := by
  intro anns
  induction anns with
  | nil => intro d h; exact h
  | cons a rest ih =>
      intro d h
      rw [List.foldl_cons]
      exact ih _ (groupStep_keys_nodup pubCache d a h)

/-- C3 (amended): the `results` dictionary of `dehydrate_annotations` groups
the version's pairs by gene with one group per referenced gene (set
semantics), but each gene's group carries only the publication records of
that gene's pairs occurring after the gene's last pair whose publication
record is absent: a pair with an unresolved publication resets the gene's
already-accumulated group to empty, and records accumulate in pair order
without identity-level deduplication. -/
theorem dehydrate_annotations_grouping (pubCache : Nat → Option Pub)
    (anns : List (Nat × Nat)) (g : Nat) :
    ((groupAnnotations pubCache anns).map Prod.fst).Nodup ∧
    dictGet (groupAnnotations pubCache anns) g =
      (if anns.any (fun a => a.1 == g) then
        some ((suffixResolved pubCache (pubsFor g anns)).filterMap pubCache)
      else none) := by
  constructor
  · exact foldl_groupStep_keys_nodup pubCache anns [] (by simp)
  · unfold groupAnnotations
    rw [dictGet_foldl_groupStep]
    by_cases h : anns.any (fun a => a.1 == g)
    · rw [if_pos h, if_pos h]
      rw [show dictGet ([] : List (Nat × List Pub)) g = none from rfl]
      rw [Option.getD_none, applyPubs_eq_suffix]
    · rw [if_neg h, if_neg h]
      rfl

/-- Construction of the `gene_cache` dictionary of `dehydrate_annotations`
(resources.py): in all-available mode (the request carries
`xrids_requested=true`) and in the default Symbol/Entrez/empty/absent mode,
the cache holds the stored gene record of every referenced gene present in
the `Gene` table (the two modes differ only in how much of the record is
serialized, not in which genes are cached); in specific-xrid mode it holds,
per gene, the cross-reference rows of the requested namespace (later rows
overwrite earlier ones), after checking that the namespace exists
(`BadRequest` otherwise). -/
def buildGeneCache (genes : List Gene) (crossrefs : List CrossRef)
    (crossrefdbNames : List String)
    (xrids_requested specific_xrid : Option String)
    (referenced : List Nat) : Except String (List (Nat × GeneInfo)) :=
  if xrids_requested == some "true" then
    .ok ((genes.filter (fun g => referenced.contains g.id)).map
      (fun g => (g.id, GeneInfo.full g)))
  else if specific_xrid == some "Symbol" || specific_xrid == some "Entrez"
      || specific_xrid == some "" || specific_xrid == none then
    .ok ((genes.filter (fun g => referenced.contains g.id)).map
      (fun g => (g.id, GeneInfo.full g)))
  else if crossrefdbNames.contains (specific_xrid.getD "") then
    .ok ((crossrefs.filter (fun x =>
      x.crossrefdb == specific_xrid.getD ""
        && referenced.contains x.gene_id)).map
      (fun x => (x.gene_id, GeneInfo.xref x)))
  else
    .error "The type of gene identifier (xrid) you requested is not in our database."

instance {e a : Type} [DecidableEq e] [DecidableEq a] :
    DecidableEq (Except e a) := by
  intro x y
  cases x <;> cases y
  case error.error e1 e2 =>
    exact if h : e1 = e2 then .isTrue (by rw [h])
      else .isFalse (by intro hc; injection hc; contradiction)
  case error.ok e1 a2 => exact .isFalse (by intro hc; injection hc)
  case ok.error a1 e2 => exact .isFalse (by intro hc; injection hc)
  case ok.ok a1 a2 =>
    exact if h : a1 = a2 then .isTrue (by rw [h])
      else .isFalse (by intro hc; injection hc; contradiction)

/-- The `pub_cache` dictionary of `dehydrate_annotations`: the stored
publication records whose id is among the referenced publication ids. -/
def buildPubCache (pubsTable : List Pub) (referencedPubs : List Nat) :
    Nat → Option Pub :=
  fun p =>
    if referencedPubs.contains p then
      ((pubsTable.filter (fun q => q.id == p)).head?)
    else none

/-- Models `VersionResource.dehydrate_annotations` (resources.py): build the
gene cache according to the requested cross-reference mode, build the
publication cache, fold the version's pairs into the `results` dictionary,
then emit one entry per group whose gene is present in the gene cache;
groups whose gene misses the cache are skipped entirely. -/
def dehydrate_annotations (genes : List Gene) (crossrefs : List CrossRef)
    (crossrefdbNames : List String) (pubsTable : List Pub)
    (xrids_requested specific_xrid : Option String)
    (anns : List (Nat × Nat)) :
    Except String (List (GeneInfo × List Pub)) :=
  match buildGeneCache genes crossrefs crossrefdbNames xrids_requested
      specific_xrid (anns.map (fun a => a.1)) with
  | .error e => .error e
  | .ok geneCache =>
      let pubCache := buildPubCache pubsTable (anns.map (fun a => a.2))
      let results := groupAnnotations pubCache anns
      .ok (results.filterMap (fun gp =>
        (dictLast geneCache gp.1).map (fun gi => (gi, gp.2))))

/-- Example gene row used by concrete (counter)examples. -/
def exGene1 : Gene := { id := 1, entrezid := 111, systematic_name := "G1" }

/-- Example publication row used by concrete (counter)examples. -/
def exPub10 : Pub := { id := 10, pmid := 900, title := "p10" }

/-- C3 counterexample: the version's pairs are (gene 1, pub 10) and
(gene 1, pub 11); publication 10 is stored, publication 11 is not.  The pair
with the absent publication resets gene 1's group, so the dehydrated result
carries no publication for gene 1 even though pub 10 was resolved — the
claim would require the group to carry exactly the resolved record of
pub 10. -/
theorem dehydrate_annotations_missing_pub_resets_group :
    dehydrate_annotations [exGene1] [] [] [exPub10] none none
        [(1, 10), (1, 11)] = .ok [(GeneInfo.full exGene1, [])] ∧
    dehydrate_annotations [exGene1] [] [] [exPub10] none none
        [(1, 10), (1, 11)] ≠ .ok [(GeneInfo.full exGene1, [exPub10])] ∧
    buildPubCache [exPub10] [10, 11] 10 = some exPub10 ∧
    buildPubCache [exPub10] [10, 11] 11 = none := by
  refine ⟨by decide, by decide, by decide, by decide⟩

theorem dictGet_mem {α : Type} {l : List (Nat × α)} {k : Nat} {v : α}
    (h : dictGet l k = some v) : (k, v) ∈ l := by
  unfold dictGet at h
  cases hf : l.filter (fun p => p.1 == k) with
  | nil => rw [hf] at h; cases h
  | cons p ps =>
      rw [hf] at h
      simp only [List.head?_cons, Option.map_some'] at h
      have hp : p ∈ l.filter (fun q => q.1 == k) := by
        rw [hf]; exact List.mem_cons_self _ _
      have hmem := List.mem_filter.mp hp
      have hk : p.1 = k := by simpa using hmem.2
      have hv : p.2 = v := by simpa using h
      have : p = (k, v) := by
        cases p
        simp only at hk hv
        rw [hk, hv]
      rw [← this]
      exact hmem.1

theorem dictLast_mem {α : Type} {l : List (Nat × α)} {k : Nat} {v : α}
    (h : dictLast l k = some v) : (k, v) ∈ l := by
  unfold dictLast at h
  cases hf : (l.filter (fun p => p.1 == k)).getLast? with
  | none => rw [hf] at h; cases h
  | some p =>
      rw [hf] at h
      simp only [Option.map_some'] at h
      have hp : p ∈ l.filter (fun q => q.1 == k) :=
        List.mem_of_getLast?_eq_some hf
      have hmem := List.mem_filter.mp hp
      have hk : p.1 = k := by simpa using hmem.2
      have hv : p.2 = v := by simpa using h
      have : p = (k, v) := by
        cases p
        simp only at hk hv
        rw [hk, hv]
      rw [← this]
      exact hmem.1

theorem dictLast_isSome {α : Type} (l : List (Nat × α)) (k : Nat)
    (h : ∃ p ∈ l, p.1 = k) : (dictLast l k).isSome := by
  obtain ⟨p, hp, hk⟩ := h
  unfold dictLast
  rw [Option.isSome_map']
  rw [List.getLast?_isSome]
  intro hnil
  have : p ∈ l.filter (fun q => q.1 == k) :=
    List.mem_filter.mpr ⟨hp, by simpa using hk⟩
  rw [hnil] at this
  cases this

/-- C8: when a specific cross-reference namespace is requested, every gene
with no cross-reference in that namespace is omitted entirely from the
dehydrated result (no partial gene record is emitted); in the default
(Symbol/Entrez/absent) mode and in the all-available mode, every referenced
gene present in the gene store yields an entry carrying its stored record. -/
theorem dehydrate_annotations_xref_modes
    (genes : List Gene) (crossrefs : List CrossRef)
    (crossrefdbNames : List String) (pubsTable : List Pub)
    (anns : List (Nat × Nat)) (g : Nat) :
    (∀ (s : String) (out : List (GeneInfo × List Pub)),
      s ≠ "Symbol" → s ≠ "Entrez" → s ≠ "" →
      (∀ x ∈ crossrefs, x.crossrefdb = s → x.gene_id ≠ g) →
      dehydrate_annotations genes crossrefs crossrefdbNames pubsTable
        none (some s) anns = .ok out →
      ∀ e ∈ out, e.1.geneId ≠ g) ∧
    (∀ out : List (GeneInfo × List Pub),
      dehydrate_annotations genes crossrefs crossrefdbNames pubsTable
        none none anns = .ok out →
      (∃ gr ∈ genes, gr.id = g) →
      anns.any (fun a => a.1 == g) = true →
      ∃ gr pubs, gr ∈ genes ∧ gr.id = g ∧ (GeneInfo.full gr, pubs) ∈ out) ∧
    (∀ out : List (GeneInfo × List Pub),
      dehydrate_annotations genes crossrefs crossrefdbNames pubsTable
        (some "true") none anns = .ok out →
      (∃ gr ∈ genes, gr.id = g) →
      anns.any (fun a => a.1 == g) = true →
      ∃ gr pubs, gr ∈ genes ∧ gr.id = g ∧ (GeneInfo.full gr, pubs) ∈ out) := by
  have hdefault : ∀ (xr : Option String) (out : List (GeneInfo × List Pub)),
      buildGeneCache genes crossrefs crossrefdbNames xr none
          (anns.map (fun a => a.1)) =
        .ok ((genes.filter (fun gr =>
          (anns.map (fun a => a.1)).contains gr.id)).map
          (fun gr => (gr.id, GeneInfo.full gr))) →
      dehydrate_annotations genes crossrefs crossrefdbNames pubsTable
        xr none anns = .ok out →
      (∃ gr ∈ genes, gr.id = g) →
      anns.any (fun a => a.1 == g) = true →
      ∃ gr pubs, gr ∈ genes ∧ gr.id = g ∧ (GeneInfo.full gr, pubs) ∈ out := by
    intro xr out hcache hout hstore href
    obtain ⟨gr0, hgr0, hgr0id⟩ := hstore
    unfold dehydrate_annotations at hout
    rw [hcache] at hout
    simp only [Except.ok.injEq] at hout
    set geneCache := (genes.filter (fun gr =>
      (anns.map (fun a => a.1)).contains gr.id)).map
      (fun gr => (gr.id, GeneInfo.full gr)) with hgc
    set pubCache := buildPubCache pubsTable (anns.map (fun a => a.2))
    have hrefmem : g ∈ anns.map (fun a => a.1) := by
      obtain ⟨a, ha, hag⟩ := List.any_eq_true.mp href
      exact List.mem_map.mpr ⟨a, ha, by simpa using hag⟩
    have hgroup : dictGet (groupAnnotations pubCache anns) g =
        some ((suffixResolved pubCache (pubsFor g anns)).filterMap
          pubCache) := by
      unfold groupAnnotations
      rw [dictGet_foldl_groupStep, if_pos href]
      rw [show dictGet ([] : List (Nat × List Pub)) g = none from rfl]
      rw [Option.getD_none, applyPubs_eq_suffix]
    have hresmem : (g, (suffixResolved pubCache (pubsFor g anns)).filterMap
        pubCache) ∈ groupAnnotations pubCache anns := dictGet_mem hgroup
    have hcachemem : ∃ p ∈ geneCache, p.1 = g := by
      refine ⟨(gr0.id, GeneInfo.full gr0), ?_, by simpa using hgr0id⟩
      rw [hgc]
      exact List.mem_map.mpr ⟨gr0,
        List.mem_filter.mpr ⟨hgr0, by
          simp only [List.elem_eq_mem, decide_eq_true_eq]
          rw [hgr0id]; exact hrefmem⟩, rfl⟩
    have hsome := dictLast_isSome geneCache g hcachemem
    obtain ⟨gi, hgi⟩ := Option.isSome_iff_exists.mp hsome
    have hgimem := dictLast_mem hgi
    rw [hgc] at hgimem
    obtain ⟨gr, hgrf, hgreq⟩ := List.mem_map.mp hgimem
    have hgrid : gr.id = g := by
      have := congrArg Prod.fst hgreq
      simpa using this
    have hgifull : GeneInfo.full gr = gi := by
      have := congrArg Prod.snd hgreq
      simpa using this
    refine ⟨gr, (suffixResolved pubCache (pubsFor g anns)).filterMap pubCache,
      (List.mem_filter.mp hgrf).1, hgrid, ?_⟩
    rw [← hout]
    apply List.mem_filterMap.mpr
    refine ⟨(g, (suffixResolved pubCache (pubsFor g anns)).filterMap pubCache),
      hresmem, ?_⟩
    simp only [hgi, Option.map_some']
    rw [hgifull]
  refine ⟨?_, ?_, ?_⟩
  · intro s out hs1 hs2 hs3 hnoxref hout e he
    by_cases hdb : crossrefdbNames.contains s
    · have hcache : buildGeneCache genes crossrefs crossrefdbNames none
          (some s) (anns.map (fun a => a.1)) =
          .ok ((crossrefs.filter (fun x =>
            x.crossrefdb == s
              && (anns.map (fun a => a.1)).contains x.gene_id)).map
            (fun x => (x.gene_id, GeneInfo.xref x))) := by
        unfold buildGeneCache
        rw [if_neg (by simp)]
        rw [if_neg (by simp [hs1, hs2, hs3])]
        rw [if_pos (by simpa using hdb)]
        simp only [Option.getD_some]
      unfold dehydrate_annotations at hout
      rw [hcache] at hout
      simp only [Except.ok.injEq] at hout
      rw [← hout] at he
      obtain ⟨gp, hgp, hmap⟩ := List.mem_filterMap.mp he
      cases hlast : dictLast ((crossrefs.filter (fun x =>
          x.crossrefdb == s && (anns.map (fun a => a.1)).contains
            x.gene_id)).map (fun x => (x.gene_id, GeneInfo.xref x)))
          gp.1 with
      | none => rw [hlast] at hmap; cases hmap
      | some gi =>
          rw [hlast] at hmap
          simp only [Option.map_some', Option.some_inj] at hmap
          have hgimem := dictLast_mem hlast
          obtain ⟨x, hxf, hxeq⟩ := List.mem_map.mp hgimem
          have hxmem := List.mem_filter.mp hxf
          have hxdb : x.crossrefdb = s := by
            have := hxmem.2
            simp only [Bool.and_eq_true, beq_iff_eq] at this
            exact this.1
          have hgix : GeneInfo.xref x = gi := by
            have := congrArg Prod.snd hxeq
            simpa using this
          have he1 : e.1 = gi := by rw [← hmap]
          rw [he1, ← hgix]
          simp only [GeneInfo.geneId]
          exact hnoxref x hxmem.1 hxdb
    · have hcache : buildGeneCache genes crossrefs crossrefdbNames none
          (some s) (anns.map (fun a => a.1)) = .error
            "The type of gene identifier (xrid) you requested is not in our database." := by
        unfold buildGeneCache
        rw [if_neg (by simp)]
        rw [if_neg (by simp [hs1, hs2, hs3])]
        rw [if_neg (by simpa using hdb)]
      unfold dehydrate_annotations at hout
      rw [hcache] at hout
      cases hout
  · intro out hout
    exact hdefault none out (by
      unfold buildGeneCache
      rw [if_neg (by simp)]
      rw [if_pos (by simp)]) hout
  · intro out hout
    exact hdefault (some "true") out
      (by unfold buildGeneCache; rw [if_pos (by simp)]) hout

/-- Example cross-reference row for gene 2 in namespace GO. -/
def exXrefGene2 : CrossRef :=
  { id := 50, gene_id := 2, crossrefdb := "GO", xrid := "GO:42" }

/-- Witness for C8 at a concrete input: requesting namespace GO, in which
gene 1 has no cross-reference, yields a result whose (unique) entry is for
gene 2, not gene 1. -/
theorem dehydrate_annotations_xref_modes_witness :
    (GeneInfo.xref exXrefGene2, ([] : List Pub)).1.geneId ≠ 1 :=
  (dehydrate_annotations_xref_modes [exGene1] [exXrefGene2] ["GO"] []
      [(1, 10), (2, 11)] 1).1 "GO"
    [(GeneInfo.xref exXrefGene2, [])]
    (by decide) (by decide) (by decide)
    (by
      intro x hx hdb
      rw [List.mem_singleton] at hx
      subst hx
      decide)
    (by decide)
    (GeneInfo.xref exXrefGene2, []) (List.mem_cons_self _ _)

/-- The update payload of `GenesetResource.obj_update` (resources.py):
title, abstract and public, each absent when the request did not carry the
key (`bundle.data[...]` raising KeyError). -/
structure UpdateData where
  title : Option String
  abstract : Option String
  public : Option Bool
  deriving DecidableEq

/-- Python truthiness of the optional string read from the payload: absent
keys read as None, which is falsy, and so is the empty string. -/
def truthyStr : Option String → Bool
  | some s => s != ""
  | none => false

/-- Models `GenesetResource.obj_update` (resources.py): copy any supplied
title, abstract or public value onto the in-memory row, then persist only
when the supplied title or abstract is truthy (`if title or abstract:
self.save(bundle)`); otherwise the stored row stays as it was.  The result
is the stored row after the request. -/
def obj_update (data : UpdateData) (g : Geneset) : Geneset :=
  let obj1 := match data.title with
    | some t => { g with title := t }
    | none => g
  let obj2 := match data.abstract with
    | some a => { obj1 with abstract := a }
    | none => obj1
  let obj3 := match data.public with
    | some p => { obj2 with public := p }
    | none => obj2
  if truthyStr data.title || truthyStr data.abstract then obj3 else g

/-- Update of the stored tables by `obj_update`: only the addressed geneset
row can change; the `Version` table is not consulted or written at all. -/
def obj_update_tables (data : UpdateData) (genesets : List Geneset)
    (versions : List Version) (gid : Nat) : List Geneset × List Version :=
  (genesets.map (fun g => if g.id == gid then obj_update data g else g),
    versions)

/-- C10: an update can change only the title, abstract and public flag of the
stored collection; id, creator, slug, fork_of, organism, the deleted
tombstone, and the version table are all left unchanged; and when the request
supplies neither a title nor an abstract nothing is persisted at all, so a
request changing only the public flag leaves the stored collection
unchanged. -/
theorem obj_update_frame (data : UpdateData) (g : Geneset)
    (genesets : List Geneset) (versions : List Version) (gid : Nat) :
    ((obj_update data g).id = g.id ∧
     (obj_update data g).creator = g.creator ∧
     (obj_update data g).slug = g.slug ∧
     (obj_update data g).fork_of = g.fork_of ∧
     (obj_update data g).organism = g.organism ∧
     (obj_update data g).deleted = g.deleted) ∧
    (obj_update_tables data genesets versions gid).2 = versions ∧
    (data.title = none → data.abstract = none → obj_update data g = g) := by
  refine ⟨?_, rfl, ?_⟩
  · unfold obj_update
    rcases data with ⟨t, a, p⟩
    cases t <;> cases a <;> cases p <;>
      simp [truthyStr] <;> split <;> simp
  · intro ht ha
    unfold obj_update
    rw [ht, ha]
    simp [truthyStr]

/-- Witness for C10: a concrete request supplying only `public` leaves the
concrete stored collection unchanged, and its frame fields match. -/
theorem obj_update_frame_witness :
    (obj_update { title := none, abstract := none, public := some true }
        exPrivateGeneset).creator = exPrivateGeneset.creator ∧
    obj_update { title := none, abstract := none, public := some true }
        exPrivateGeneset = exPrivateGeneset :=
  ⟨(obj_update_frame { title := none, abstract := none, public := some true }
      exPrivateGeneset [] [] 1).1.2.1,
   (obj_update_frame { title := none, abstract := none, public := some true }
      exPrivateGeneset [] [] 1).2.2 rfl rfl⟩

/-- Error outcomes of the create operations, at the abstraction level of the
specification's taxonomy: `duplicateSlug` is the Conflict surfaced by
`post_list` (an HTTP bad-request response with the documented message),
`missingParent` the rejection of a parentless version in a non-empty
lineage, `notFound`/`multipleObjectsReturned` the Django `get` exceptions,
`badRequest` the remaining validation rejections. -/
inductive ApiError where
  | unauthorized
  | duplicateSlug
  | notFound
  | multipleObjectsReturned
  | badRequest (msg : String)
  | missingParent
  deriving DecidableEq

/-- The error raised by the modelled `Version.save`. -/
inductive SaveError where
  | noParentVersionSpecified
  deriving DecidableEq

/-- The warning sets and resolved pairs returned by `format_annotations`. -/
structure FormatResult where
  pairs : List (Nat × Nat)
  genes_not_found : List Nat
  pubs_not_loaded : List Nat
  multiple_genes_found : List Nat
  deriving DecidableEq

/-- Insertion into a set represented as a duplicate-free list. -/
def insertSet (l : List Nat) (x : Nat) : List Nat :=
  if l.contains x then l else l ++ [x]

/-- Modelled from the spec: `format_annotations` is defined on the `Version`
model in `versions/models.py`, which is not part of this snapshot (§4.2 of
the specification describes it; resources.py only calls it).  For each raw
entry `(identifier, publication id)` the gene identifier is resolved against
the posted namespace (or the organism's default) through the abstract
resolver; identifiers with zero matches go to `genes_not_found` and the
entry is dropped from the resolved pairs, identifiers with several matches
go to `multiple_genes_found` and the first match is used; publication
identifiers the bibliographic collaborator fails to load go to
`pubs_not_loaded` (the `full_pubs` flag only controls how much of each
record is hydrated, which the abstract `pubLoaded` absorbs).  The function
is total: no individual bad entry raises. -/
def formatStep (resolve : Option String → Nat → Nat → List Nat)
    (pubLoaded : Nat → Bool) (xrdb : Option String) (organism : Nat)
    (acc : FormatResult) (entry : Nat × Nat) : FormatResult :=
  let acc1 := if pubLoaded entry.2 then acc
    else { acc with
      pubs_not_loaded := insertSet acc.pubs_not_loaded entry.2 }
  match resolve xrdb organism entry.1 with
  | [] => { acc1 with
      genes_not_found := insertSet acc1.genes_not_found entry.1 }
  | [gid] => { acc1 with pairs := acc1.pairs ++ [(gid, entry.2)] }
  | gid :: _ :: _ =>
      { acc1 with
        pairs := acc1.pairs ++ [(gid, entry.2)]
        multiple_genes_found :=
          insertSet acc1.multiple_genes_found entry.1 }

/-- Modelled from the spec: the fold of `formatStep` over the raw entries
(the unused `full_pubs` flag is kept for signature fidelity; it only
controls how much of each publication record is hydrated, which the
abstract `pubLoaded` absorbs). -/
def format_annotations (resolve : Option String → Nat → Nat → List Nat)
    (pubLoaded : Nat → Bool) (xrdb : Option String) (full_pubs : Option Bool)
    (organism : Nat) (raw : List (Nat × Nat)) : FormatResult :=
  raw.foldl (formatStep resolve pubLoaded xrdb organism) ⟨[], [], [], []⟩

/-- The primary key the database assigns to the next inserted version row
(greater than every existing key). -/
def nextVersionId (versions : List Version) : Nat :=
  (versions.map (fun v => v.id)).foldr Nat.max 0 + 1

/-- Modelled from the spec: `Version.save` (versions/models.py, not part of
this snapshot) raises `NoParentVersionSpecified` when the geneset already
has at least one version and the new row carries no parent (§4.1
`MissingParent`; the calling code in resources.py documents both the
exception and the copy-the-root-first workaround).  Otherwise the row is
inserted with a fresh primary key; `commit_date` is set to the current time
unless the auto-now-add behaviour has been suspended (the fork path), in
which case the given date is kept.  The content-derived `ver_hash` of newly
committed rows is not modelled: no claim consults it, and fork copies keep
the hash the copied row already carries. -/
def versionSave (versions : List Version) (autoNowAdd : Bool) (now : Nat)
    (v : Version) : Except SaveError (List Version) :=
  if v.parent == none && versions.any (fun w => w.geneset == v.geneset) then
    .error .noParentVersionSpecified
  else
    .ok (versions ++ [{ v with
      id := nextVersionId versions
      commit_date := if autoNowAdd then now else v.commit_date }])

/-- Django `QuerySet.get`: exactly one row must match. -/
def ormGetVersion (versions : List Version) (p : Version → Bool) :
    Except ApiError Version :=
  match versions.filter p with
  | [] => .error .notFound
  | [v] => .ok v
  | _ :: _ :: _ => .error .multipleObjectsReturned

/-- The while loop of the fork path of `GenesetResource.obj_create`
(resources.py): while the current version has a parent, save a copy of it
(new key, `geneset` rebound to the target, original `commit_date` kept since
auto-now-add is suspended) and move to the parent.  Parent foreign keys are
resolved against the original table: copies receive fresh primary keys, so
dereferencing a parent key over the grown table returns the same row as over
the table before the fork.  The fuel argument bounds the walk; the source
loop would not terminate on a cyclic ancestry, which the model reports as an
error once the fuel (the size of the version table) is exhausted. -/
def fork_loop (orig : List Version) (targetGs : Nat) :
    Nat → List Version → Version → Except ApiError (List Version)
  | fuel, acc, cur =>
    match cur.parent with
    | none => .ok acc
    | some pid =>
        match fuel with
        | 0 => .error (.badRequest "fork ancestry deeper than the table")
        | fuel' + 1 =>
            match versionSave acc false 0 { cur with geneset := targetGs } with
            | .error _ => .error .missingParent
            | .ok acc' =>
                match ormGetVersion orig (fun w => w.id == pid) with
                | .error e => .error e
                | .ok p => fork_loop orig targetGs fuel' acc' p

/-- The ancestor chain of a version up to but excluding the lineage root,
computed against the stored table (the version itself first). -/
def ancestorsExceptRoot (orig : List Version) :
    Nat → Version → Option (List Version)
  | fuel, cur =>
    match cur.parent with
    | none => some []
    | some pid =>
        match fuel with
        | 0 => none
        | fuel' + 1 =>
            match ormGetVersion orig (fun w => w.id == pid) with
            | .error _ => none
            | .ok p => (ancestorsExceptRoot orig fuel' p).map
                (fun l => cur :: l)

/-- The fork path of `GenesetResource.obj_create` (resources.py): copy the
source lineage's root first (otherwise the modelled `Version.save` raises),
resolve `fork_version` by hash within the source lineage, then walk and copy
the parent chain. -/
def fork_versions (versions : List Version) (sourceGs targetGs : Nat)
    (fork_ver_hash : String) : Except ApiError (List Version) :=
  match ormGetVersion versions
      (fun w => w.geneset == sourceGs && w.parent == none) with
  | .error e => .error e
  | .ok first =>
      match versionSave versions false 0 { first with geneset := targetGs } with
      | .error _ => .error .missingParent
      | .ok vs1 =>
          match ormGetVersion versions
              (fun w => w.geneset == sourceGs
                && w.ver_hash == fork_ver_hash) with
          | .error e => .error e
          | .ok fv => fork_loop versions targetGs versions.length vs1 fv

/-- The stored tables the create operations read and write. -/
structure Db where
  genesets : List Geneset
  versions : List Version
  deriving DecidableEq

/-- The primary key the database assigns to the next inserted geneset row. -/
def nextGenesetId (genesets : List Geneset) : Nat :=
  (genesets.map (fun g => g.id)).foldr Nat.max 0 + 1

/-- The deserialized payload of a geneset-creating POST request
(resources.py reads each key from `bundle.data`, absent keys read as
`None`). -/
structure CreateGenesetData where
  title : String
  slug : Option String
  abstract : String
  public : Bool
  organism : Nat
  fork_of : Option Nat
  fork_version : Option String
  parent_version : Option Nat
  description : Option String
  annotations : Option (List (Nat × Nat))
  xrdb : Option String
  full_pubs : Option Bool
  deriving DecidableEq

/-- The non-fork branch of `GenesetResource.obj_create` (resources.py): when
a truthy annotation payload accompanies the create, resolve it with
`format_annotations` and save an initial version carrying the resolved
pairs (description defaulted, parent from the optional `parent_version`
key); otherwise no version row is written.  The warning sets are handed back
for the response. -/
def create_initial_version (resolve : Option String → Nat → Nat → List Nat)
    (pubLoaded : Nat → Bool) (versions : List Version) (gs : Geneset)
    (data : CreateGenesetData) (now : Nat) :
    Except SaveError (List Version × FormatResult) :=
  match data.annotations with
  | none => .ok (versions, ⟨[], [], [], []⟩)
  | some raw =>
      if raw.isEmpty then .ok (versions, ⟨[], [], [], []⟩)
      else
        let fa := format_annotations resolve pubLoaded data.xrdb
          data.full_pubs gs.organism raw
        match versionSave versions true now
            { id := 0, geneset := gs.id, creator := gs.creator,
              commit_date := 0,
              description := data.description.getD "Created with collection.",
              ver_hash := "", parent := data.parent_version,
              annotations := fa.pairs } with
        | .error e => .error e
        | .ok vs => .ok (vs, fa)

/-- The geneset row written by `obj_create`: fields from the payload, the
creator from the request user, a fresh primary key, and the slug defaulting
to the slugified title (modelled from the spec, `Geneset.save` being outside
this snapshot). -/
def createdGeneset (db : Db) (user : UserId) (data : CreateGenesetData)
    (slugify : String → String) : Geneset :=
  { id := nextGenesetId db.genesets, creator := user, title := data.title,
    abstract := data.abstract,
    slug := (data.slug.getD (slugify data.title)), public := data.public,
    deleted := false, fork_of := data.fork_of, organism := data.organism }

/-- Models `GenesetResource.obj_create` (resources.py): insert the geneset
row (creator taken from the request user by `hydrate_creator`), then either
run the fork path or create the initial version.  Tag attachment is not
modelled (no claim concerns it). -/
def geneset_obj_create (resolve : Option String → Nat → Nat → List Nat)
    (pubLoaded : Nat → Bool) (db : Db) (user : UserId)
    (data : CreateGenesetData) (now : Nat) (slugify : String → String) :
    Except ApiError (Db × Geneset × FormatResult) :=
  let gs : Geneset := createdGeneset db user data slugify
  let genesets' := db.genesets ++ [gs]
  match data.fork_version with
  | some h =>
      match data.fork_of with
      | none => .error .notFound
      | some src =>
          match fork_versions db.versions src gs.id h with
          | .error e => .error e
          | .ok vs => .ok (⟨genesets', vs⟩, gs, ⟨[], [], [], []⟩)
  | none =>
      match create_initial_version resolve pubLoaded db.versions gs data
          now with
      | .error _ => .error .missingParent
      | .ok (vs, w) => .ok (⟨genesets', vs⟩, gs, w)

/-- Models `GenesetResource.post_list` (resources.py): reject when the
request user is missing or unauthenticated; reject with the duplicate-slug
Conflict when a geneset of the same creator already carries the posted slug,
or (always checked) the slugified title; otherwise run `obj_create`.  Both
rejections happen before anything is written, which the state-passing result
makes explicit: the returned table state on those paths is the input state.
The abstract `slugify` parameter includes the truncation to the slug
column's maximum length. -/
def post_list (resolve : Option String → Nat → Nat → List Nat)
    (pubLoaded : Nat → Bool) (slugify : String → String) (db : Db)
    (user : Actor) (data : CreateGenesetData) (now : Nat) :
    Db × Except ApiError (Geneset × FormatResult) :=
  match user with
  | .auth u =>
      let dupExplicit : Bool :=
        match data.slug with
        | some s => !(((db.genesets.filter (fun g => g.creator == u)).filter
            (fun g => g.slug == s)).isEmpty)
        | none => false
      if dupExplicit then (db, .error .duplicateSlug)
      else if !(((db.genesets.filter (fun g => g.creator == u)).filter
          (fun g => g.slug == slugify data.title)).isEmpty) then
        (db, .error .duplicateSlug)
      else
        match geneset_obj_create resolve pubLoaded db u data now slugify with
        | .error e => (db, .error e)
        | .ok (db', gs, w) => (db', .ok (gs, w))
  | _ => (db, .error .unauthorized)

/-- The deserialized payload of a version-creating POST request. -/
structure CreateVersionData where
  geneset : Option Nat
  description : String
  parent : Option Nat
  annotations : Option (List (Nat × Nat))
  xrdb : Option String
  full_pubs : Option Bool
  deriving DecidableEq

/-- Models `VersionResource.obj_create` together with its hydration
(resources.py): resolve the geneset URI (bad or unresolvable URIs are
rejected before anything happens), reject a payload without annotations,
resolve the annotations, and save the version with the request user as
creator; the modelled `Version.save` raises `NoParentVersionSpecified` when
the lineage is non-empty and no parent was supplied, which `obj_create`
surfaces as a bad request, writing nothing. -/
def version_obj_create (resolve : Option String → Nat → Nat → List Nat)
    (pubLoaded : Nat → Bool) (db : Db) (u : UserId)
    (data : CreateVersionData) (now : Nat) :
    List Version × Except ApiError FormatResult :=
  match data.geneset with
  | none => (db.versions, .error (.badRequest "geneset URI"))
  | some gid =>
      match getGeneset db.genesets gid with
      | none => (db.versions, .error .notFound)
      | some gs =>
          match data.annotations with
          | none => (db.versions,
              .error (.badRequest "New versions must have annotations."))
          | some raw =>
              let fa := format_annotations resolve pubLoaded data.xrdb
                data.full_pubs gs.organism raw
              match versionSave db.versions true now
                  { id := 0, geneset := gs.id, creator := u, commit_date := 0,
                    description := data.description, ver_hash := "",
                    parent := data.parent, annotations := fa.pairs } with
              | .error _ => (db.versions, .error .missingParent)
              | .ok vs => (vs, .ok fa)

/-- When neither the posted slug nor the slugified title collides with a
geneset of the same creator, `post_list` creates the geneset row (here with
no fork and no annotations: no version row is written). -/
theorem post_list_creates (resolve : Option String → Nat → Nat → List Nat)
    (pubLoaded : Nat → Bool) (slugify : String → String) (db : Db)
    (u : UserId) (data : CreateGenesetData) (now : Nat) (s : String)
    (hslug : data.slug = some s)
    (hfork : data.fork_version = none)
    (hann : data.annotations = none)
    (hno : ∀ g ∈ db.genesets, g.creator = u →
      g.slug ≠ s ∧ g.slug ≠ slugify data.title) :
    post_list resolve pubLoaded slugify db (.auth u) data now =
      (⟨db.genesets ++ [createdGeneset db u data slugify], db.versions⟩,
        .ok (createdGeneset db u data slugify, ⟨[], [], [], []⟩)) := by
  have h1 : ((db.genesets.filter (fun g => g.creator == u)).filter
      (fun g => g.slug == s)) = [] := by
    rw [List.filter_eq_nil_iff]
    intro g hg
    have hmem := List.mem_filter.mp hg
    have := (hno g hmem.1 (by simpa using hmem.2)).1
    simpa using this
  have h2 : ((db.genesets.filter (fun g => g.creator == u)).filter
      (fun g => g.slug == slugify data.title)) = [] := by
    rw [List.filter_eq_nil_iff]
    intro g hg
    have hmem := List.mem_filter.mp hg
    have := (hno g hmem.1 (by simpa using hmem.2)).2
    simpa using this
  simp only [post_list, hslug, h1, h2, List.isEmpty_nil, Bool.not_true,
    Bool.false_eq_true, if_false, geneset_obj_create, hfork,
    create_initial_version, hann]

/-- C5: creating a collection while a (non-deleted) collection of the same
creator already carries the posted slug fails with the duplicate-slug
Conflict and writes nothing; creating collections with the same slug under
two different creators succeeds for both — slug uniqueness is scoped per
creator, not globally. -/
theorem post_list_slug_per_creator
    (resolve : Option String → Nat → Nat → List Nat) (pubLoaded : Nat → Bool)
    (slugify : String → String) (db : Db) (u : UserId)
    (data : CreateGenesetData) (now : Nat) (s : String) :
    (data.slug = some s →
      (∃ g ∈ db.genesets, g.creator = u ∧ g.slug = s ∧ g.deleted = false) →
      post_list resolve pubLoaded slugify db (.auth u) data now =
        (db, .error .duplicateSlug)) ∧
    (∀ (u2 : UserId) (data2 : CreateGenesetData) (now2 : Nat),
      u ≠ u2 →
      data.slug = some s → data2.slug = some s →
      data.fork_version = none → data2.fork_version = none →
      data.annotations = none → data2.annotations = none →
      (∀ g ∈ db.genesets, g.creator = u →
        g.slug ≠ s ∧ g.slug ≠ slugify data.title) →
      (∀ g ∈ db.genesets, g.creator = u2 →
        g.slug ≠ s ∧ g.slug ≠ slugify data2.title) →
      ∃ db1 r1 db2 r2,
        post_list resolve pubLoaded slugify db (.auth u) data now =
          (db1, .ok r1) ∧
        post_list resolve pubLoaded slugify db1 (.auth u2) data2 now2 =
          (db2, .ok r2)) := by
  constructor
  · intro hslug hdup
    obtain ⟨g, hg, hcr, hsl, hdel⟩ := hdup
    have hmem : g ∈ (db.genesets.filter (fun x => x.creator == u)).filter
        (fun x => x.slug == s) :=
      List.mem_filter.mpr
        ⟨List.mem_filter.mpr ⟨hg, by simp [hcr]⟩, by simp [hsl]⟩
    have hne : ((db.genesets.filter (fun x => x.creator == u)).filter
        (fun x => x.slug == s)).isEmpty = false := by
      cases hE : ((db.genesets.filter (fun x => x.creator == u)).filter
          (fun x => x.slug == s)).isEmpty
      · rfl
      · rw [List.isEmpty_iff] at hE
        rw [hE] at hmem
        cases hmem
    simp only [post_list, hslug, hne, Bool.not_false, if_true]
  · intro u2 data2 now2 hne12 hslug hslug2 hfork hfork2 hann hann2 hno1 hno2
    have first := post_list_creates resolve pubLoaded slugify db u data now s
      hslug hfork hann hno1
    have hno2' : ∀ g ∈ (db.genesets ++
        [createdGeneset db u data slugify]), g.creator = u2 →
        g.slug ≠ s ∧ g.slug ≠ slugify data2.title := by
      intro g hg hcr
      rcases List.mem_append.mp hg with hg | hg
      · exact hno2 g hg hcr
      · rw [List.mem_singleton] at hg
        subst hg
        exact absurd (hcr ▸ rfl) hne12
    have second := post_list_creates resolve pubLoaded slugify
      ⟨db.genesets ++ [createdGeneset db u data slugify], db.versions⟩
      u2 data2 now2 s hslug2 hfork2 hann2 hno2'
    exact ⟨_, _, _, _, first, second⟩

/-- Example geneset row carrying the slug "dna-repair" for a second
creator (user 2). -/
def exOtherCreatorGeneset : Geneset :=
  { id := 5, creator := 2, title := "DNA repair too", abstract := "",
    slug := "dna-repair", public := false, deleted := false,
    fork_of := none, organism := 9606 }

/-- Example create payload posting the slug "dna-repair". -/
def exCreateData : CreateGenesetData :=
  { title := "DNA repair", slug := some "dna-repair", abstract := "",
    public := false, organism := 9606, fork_of := none, fork_version := none,
    parent_version := none, description := none, annotations := none,
    xrdb := none, full_pubs := none }

/-- Witness for C5 at a concrete store: user 1 already owns a live
collection with slug "dna-repair", so posting that slug again as user 1 is
rejected with the duplicate-slug Conflict, leaving the tables unchanged. -/
theorem post_list_slug_per_creator_witness :
    post_list (fun _ _ _ => []) (fun _ => true) (fun t => t)
        ⟨[exPrivateGeneset], []⟩ (.auth 1) exCreateData 0 =
      (⟨[exPrivateGeneset], []⟩, .error .duplicateSlug) :=
  (post_list_slug_per_creator (fun _ _ _ => []) (fun _ => true) (fun t => t)
      ⟨[exPrivateGeneset], []⟩ 1 exCreateData 0 "dna-repair").1 rfl
    ⟨exPrivateGeneset, List.mem_singleton.mpr rfl, rfl, rfl, rfl⟩

theorem insertSet_mem (l : List Nat) (x y : Nat) :
    y ∈ insertSet l x ↔ y ∈ l ∨ y = x := by
  unfold insertSet
  split
  · rename_i h
    have hx : x ∈ l := by simpa using h
    constructor
    · exact Or.inl
    · rintro (h | rfl)
      · exact h
      · exact hx
  · simp [List.mem_append]

theorem formatStep_pairs (resolve : Option String → Nat → Nat → List Nat)
    (pubLoaded : Nat → Bool) (xrdb : Option String) (organism : Nat)
    (acc : FormatResult) (e : Nat × Nat) :
    (formatStep resolve pubLoaded xrdb organism acc e).pairs =
      acc.pairs ++ ((resolve xrdb organism e.1).head?.map
        (fun gid => (gid, e.2))).toList := by
  unfold formatStep
  cases hr : resolve xrdb organism e.1 with
  | nil => cases hp : pubLoaded e.2 <;> simp [hp]
  | cons gid rest =>
      cases rest with
      | nil => cases hp : pubLoaded e.2 <;> simp [hp]
      | cons g2 r2 => cases hp : pubLoaded e.2 <;> simp [hp]

theorem formatStep_genes_not_found
    (resolve : Option String → Nat → Nat → List Nat)
    (pubLoaded : Nat → Bool) (xrdb : Option String) (organism : Nat)
    (acc : FormatResult) (e : Nat × Nat) (x : Nat) :
    x ∈ (formatStep resolve pubLoaded xrdb organism acc e).genes_not_found ↔
      x ∈ acc.genes_not_found ∨
        (e.1 = x ∧ resolve xrdb organism e.1 = []) := by
  unfold formatStep
  cases hr : resolve xrdb organism e.1 with
  | nil =>
      cases hp : pubLoaded e.2 <;>
        simp only [hp, Bool.false_eq_true, if_false, if_true,
          insertSet_mem] <;>
        constructor <;> rintro (h | h) <;> simp_all
  | cons gid rest =>
      cases rest with
      | nil => cases hp : pubLoaded e.2 <;> simp [hp]
      | cons g2 r2 => cases hp : pubLoaded e.2 <;> simp [hp]

theorem foldl_formatStep_spec
    (resolve : Option String → Nat → Nat → List Nat)
    (pubLoaded : Nat → Bool) (xrdb : Option String) (organism : Nat) :
    ∀ (raw : List (Nat × Nat)) (acc : FormatResult),
      ((raw.foldl (formatStep resolve pubLoaded xrdb organism) acc).pairs =
        acc.pairs ++ raw.filterMap (fun e =>
          (resolve xrdb organism e.1).head?.map (fun gid => (gid, e.2)))) ∧
      (∀ x, x ∈ (raw.foldl (formatStep resolve pubLoaded xrdb organism)
          acc).genes_not_found ↔
        x ∈ acc.genes_not_found ∨
          ∃ e ∈ raw, e.1 = x ∧ resolve xrdb organism e.1 = []) := by
  intro raw
  induction raw with
  | nil => intro acc; simp
  | cons e rest ih =>
      intro acc
      rw [List.foldl_cons]
      obtain ⟨ihp, ihg⟩ :=
        ih (formatStep resolve pubLoaded xrdb organism acc e)
      constructor
      · rw [ihp, formatStep_pairs, List.filterMap_cons]
        cases hf : ((resolve xrdb organism e.1).head?.map
            (fun gid => (gid, e.2))) with
        | none => simp [hf]
        | some pr => simp [hf]
      · intro x
        rw [ihg x, formatStep_genes_not_found]
        simp only [List.mem_cons]
        constructor
        · rintro ((h | ⟨h1, h2⟩) | ⟨e', he', h1, h2⟩)
          · exact Or.inl h
          · exact Or.inr ⟨e, Or.inl rfl, h1, h2⟩
          · exact Or.inr ⟨e', Or.inr he', h1, h2⟩
        · rintro (h | ⟨e', (rfl | he'), h1, h2⟩)
          · exact Or.inl (Or.inl h)
          · exact Or.inl (Or.inr ⟨h1, h2⟩)
          · exact Or.inr ⟨e', he', h1, h2⟩

/-- The initial version row written by the non-fork create path (named for
use in proofs about `geneset_obj_create`). -/
def initialVersionRow (resolve : Option String → Nat → Nat → List Nat)
    (pubLoaded : Nat → Bool) (db : Db) (u : UserId)
    (data : CreateGenesetData) (now : Nat) (slugify : String → String)
    (raw : List (Nat × Nat)) : Version :=
  { id := nextVersionId db.versions
    geneset := (createdGeneset db u data slugify).id
    creator := (createdGeneset db u data slugify).creator
    commit_date := now
    description := data.description.getD "Created with collection."
    ver_hash := ""
    parent := data.parent_version
    annotations := (format_annotations resolve pubLoaded data.xrdb
      data.full_pubs data.organism raw).pairs }

/-- C4: creating a collection whose annotation payload contains entries with
unknown gene identifiers still succeeds: `format_annotations` never raises
for an individual bad entry, the version is written with the resolved pairs
(entries resolving to nothing are excluded — each surviving pair uses the
first match of its identifier), and the genes-not-found warning set reported
back to the caller holds exactly the identifiers that resolved to
nothing. -/
theorem geneset_create_tolerates_bad_annotations
    (resolve : Option String → Nat → Nat → List Nat) (pubLoaded : Nat → Bool)
    (slugify : String → String) (db : Db) (u : UserId)
    (data : CreateGenesetData) (now : Nat) (raw : List (Nat × Nat))
    (hfork : data.fork_version = none)
    (hann : data.annotations = some raw)
    (hne : raw ≠ [])
    (hfresh : ∀ v ∈ db.versions, v.geneset ≠ nextGenesetId db.genesets) :
    (geneset_obj_create resolve pubLoaded db u data now slugify).isOk
        = true ∧
    ∀ db' gs w, geneset_obj_create resolve pubLoaded db u data now slugify =
        .ok (db', gs, w) →
      (∃ v ∈ db'.versions, v.geneset = gs.id ∧
        v.annotations = raw.filterMap (fun e =>
          (resolve data.xrdb data.organism e.1).head?.map
            (fun gid => (gid, e.2)))) ∧
      (∀ x, x ∈ w.genes_not_found ↔
        ∃ e ∈ raw, e.1 = x ∧ resolve data.xrdb data.organism e.1 = []) := by
  have hraw : raw.isEmpty = false := by
    cases hE : raw.isEmpty
    · rfl
    · rw [List.isEmpty_iff] at hE
      exact absurd hE hne
  have hany : (db.versions.any (fun w =>
      w.geneset == nextGenesetId db.genesets)) = false := by
    rw [List.any_eq_false]
    intro w hw
    simpa using hfresh w hw
  have hok : geneset_obj_create resolve pubLoaded db u data now slugify =
      .ok (⟨db.genesets ++ [createdGeneset db u data slugify],
        db.versions ++
          [initialVersionRow resolve pubLoaded db u data now slugify raw]⟩,
        createdGeneset db u data slugify,
        format_annotations resolve pubLoaded data.xrdb data.full_pubs
          data.organism raw) := by
    simp only [geneset_obj_create, hfork, create_initial_version, hann, hraw,
      Bool.false_eq_true, if_false, if_true, versionSave, hany,
      Bool.and_false, initialVersionRow, createdGeneset]
  refine ⟨by rw [hok]; rfl, ?_⟩
  intro db' gs w hw
  rw [hok] at hw
  simp only [Except.ok.injEq, Prod.mk.injEq] at hw
  obtain ⟨hdb', hgs, hww⟩ := hw
  subst hdb'
  subst hgs
  subst hww
  constructor
  · refine ⟨initialVersionRow resolve pubLoaded db u data now slugify raw,
      ?_, rfl, ?_⟩
    · exact List.mem_append.mpr (Or.inr (List.mem_singleton.mpr rfl))
    · show (format_annotations resolve pubLoaded data.xrdb data.full_pubs
        data.organism raw).pairs = _
      unfold format_annotations
      have := (foldl_formatStep_spec resolve pubLoaded data.xrdb
        data.organism raw ⟨[], [], [], []⟩).1
      rw [this]
      rfl
  · intro x
    show x ∈ (format_annotations resolve pubLoaded data.xrdb data.full_pubs
      data.organism raw).genes_not_found ↔ _
    unfold format_annotations
    rw [(foldl_formatStep_spec resolve pubLoaded data.xrdb data.organism raw
      ⟨[], [], [], []⟩).2 x]
    simp

/-- The create payload of the concrete C4 scenario: annotation (gene 42,
pub 1001) where gene 42 will not resolve. -/
def exBadAnnData : CreateGenesetData :=
  { exCreateData with annotations := some [(42, 1001)] }

/-- The geneset row written in the concrete C4 scenario. -/
def exC4Gs : Geneset :=
  { id := 1, creator := 1, title := "DNA repair", abstract := "",
    slug := "dna-repair", public := false, deleted := false,
    fork_of := none, organism := 9606 }

/-- The version row written in the concrete C4 scenario: empty resolved
pairs. -/
def exC4Version : Version :=
  { id := 1, geneset := 1, creator := 1, commit_date := 0,
    description := "Created with collection.", ver_hash := "",
    parent := none, annotations := [] }

/-- Witness for C4: the concrete create with annotation (gene=42, pub=1001),
where 42 does not resolve, succeeds, writes a version with empty resolved
pairs, and reports genes_not_found containing 42. -/
theorem geneset_create_tolerates_bad_annotations_witness :
    geneset_obj_create (fun _ _ _ => []) (fun _ => true) ⟨[], []⟩ 1
        exBadAnnData 0 (fun t => t) =
      .ok (⟨[exC4Gs], [exC4Version]⟩, exC4Gs, ⟨[], [42], [], []⟩) ∧
    (geneset_obj_create (fun _ _ _ => []) (fun _ => true) ⟨[], []⟩ 1
        exBadAnnData 0 (fun t => t)).isOk = true ∧
    42 ∈ (⟨[], [42], [], []⟩ : FormatResult).genes_not_found := by
  refine ⟨by decide,
    (geneset_create_tolerates_bad_annotations (fun _ _ _ => [])
      (fun _ => true) (fun t => t) ⟨[], []⟩ 1 exBadAnnData 0 [(42, 1001)]
      rfl rfl (by decide) (by intro v hv; cases hv)).1, ?_⟩
  have h2 := (geneset_create_tolerates_bad_annotations (fun _ _ _ => [])
    (fun _ => true) (fun t => t) ⟨[], []⟩ 1 exBadAnnData 0 [(42, 1001)]
    rfl rfl (by decide) (by intro v hv; cases hv)).2
    ⟨[exC4Gs], [exC4Version]⟩ exC4Gs ⟨[], [42], [], []⟩ (by decide)
  exact (h2.2 42).mpr ⟨(42, 1001), List.mem_singleton.mpr rfl, rfl, rfl⟩

/-- C6: creating a new version in a collection that already has a root
version, without supplying a parent, is rejected as a bad request
(`NoParentVersionSpecified` surfaced by `obj_create`) and no version row is
written; moreover a successful save never gives a collection a second
rootless version — the lineage keeps at most one root. -/
theorem version_create_missing_parent
    (resolve : Option String → Nat → Nat → List Nat) (pubLoaded : Nat → Bool)
    (db : Db) (u : UserId) (data : CreateVersionData) (now : Nat)
    (gid : Nat) (gs : Geneset) (raw : List (Nat × Nat)) :
    (data.geneset = some gid →
      getGeneset db.genesets gid = some gs →
      data.annotations = some raw →
      data.parent = none →
      (∃ w ∈ db.versions, w.geneset = gs.id ∧ w.parent = none) →
      version_obj_create resolve pubLoaded db u data now =
        (db.versions, .error .missingParent)) ∧
    (∀ (versions : List Version) (autoNow : Bool) (now2 : Nat) (v : Version)
        (vs' : List Version),
      (versions.filter (fun w => w.geneset == v.geneset
        && w.parent == none)).length ≤ 1 →
      versionSave versions autoNow now2 v = .ok vs' →
      (vs'.filter (fun w => w.geneset == v.geneset
        && w.parent == none)).length ≤ 1) := by
  constructor
  · intro hgid hgs hann hpar hroot
    obtain ⟨w, hw, hwgs, hwpar⟩ := hroot
    have hany : (db.versions.any (fun x => x.geneset == gs.id)) = true :=
      List.any_eq_true.mpr ⟨w, hw, by simp [hwgs]⟩
    simp only [version_obj_create, hgid, hgs, hann, versionSave, hpar, hany,
      Bool.and_true, beq_self_eq_true, if_true]
  · intro versions autoNow now2 v vs' hone hsave
    unfold versionSave at hsave
    split at hsave
    · cases hsave
    · rename_i hguard
      simp only [Except.ok.injEq] at hsave
      subst hsave
      rw [List.filter_append]
      rw [List.length_append]
      by_cases hpar : v.parent = none
      · have hnone : (versions.any (fun w => w.geneset == v.geneset))
            = false := by
          cases hA : versions.any (fun w => w.geneset == v.geneset)
          · rfl
          · exfalso
            apply hguard
            simp [hpar, hA]
        have hfil : versions.filter (fun w => w.geneset == v.geneset
            && w.parent == none) = [] := by
          rw [List.filter_eq_nil_iff]
          intro a ha
          have := List.any_eq_false.mp hnone a ha
          simp only [Bool.and_eq_true, not_and]
          intro hgs2
          exact absurd hgs2 this
        rw [hfil]
        have hle := List.length_filter_le
          (fun w => w.geneset == v.geneset && w.parent == none)
          [{ v with
            id := nextVersionId versions
            commit_date := if autoNow then now2 else v.commit_date }]
        simpa using hle
      · have hfil2 : ([{ v with
            id := nextVersionId versions
            commit_date := if autoNow then now2 else v.commit_date }].filter
            (fun w => w.geneset == v.geneset && w.parent == none)) = [] := by
          rw [List.filter_eq_nil_iff]
          intro a ha
          rw [List.mem_singleton] at ha
          subst ha
          simp only [Bool.and_eq_true, not_and]
          intro _
          simpa using hpar
        rw [hfil2]
        simpa using hone

/-- The payload of the concrete C6 scenario: a second version for geneset 1
with no parent supplied. -/
def exNoParentData : CreateVersionData :=
  { geneset := some 1, description := "second try", parent := none,
    annotations := some [(1, 2)], xrdb := none, full_pubs := none }

/-- Witness for C6: geneset 1 already has a rootless version, so creating
another version without a parent is rejected and the version table is
unchanged. -/
theorem version_create_missing_parent_witness :
    version_obj_create (fun _ _ _ => [1]) (fun _ => true)
        ⟨[exPrivateGeneset], [exOthersVersion]⟩ 1 exNoParentData 5 =
      ([exOthersVersion], .error .missingParent) :=
  (version_create_missing_parent (fun _ _ _ => [1]) (fun _ => true)
      ⟨[exPrivateGeneset], [exOthersVersion]⟩ 1 exNoParentData 5 1
      exPrivateGeneset [(1, 2)]).1 rfl (by decide) rfl rfl
    ⟨exOthersVersion, List.mem_singleton.mpr rfl, rfl, rfl⟩

theorem version_id_lt_nextVersionId (versions : List Version) :
    ∀ w ∈ versions, w.id < nextVersionId versions := by
  unfold nextVersionId
  induction versions with
  | nil => intro w hw; cases hw
  | cons a l ih =>
      intro w hw
      rcases List.mem_cons.mp hw with rfl | hw
      · simp only [List.map_cons, List.foldr_cons]
        exact Nat.lt_succ_of_le (Nat.le_max_left _ _)
      · have h1 := ih w hw
        simp only [List.map_cons, List.foldr_cons]
        have h2 : (l.map (fun v => v.id)).foldr Nat.max 0 ≤
            Nat.max a.id ((l.map (fun v => v.id)).foldr Nat.max 0) :=
          Nat.le_max_right _ _
        omega

theorem nextVersionId_le_append (versions : List Version) (x : Version) :
    nextVersionId versions ≤ nextVersionId (versions ++ [x]) := by
  unfold nextVersionId
  induction versions with
  | nil =>
      simp only [List.nil_append, List.map_nil, List.map_cons,
        List.foldr_nil, List.foldr_cons]
      exact Nat.succ_le_succ (Nat.zero_le _)
  | cons a l ih =>
      simp only [List.cons_append, List.map_cons, List.foldr_cons] at ih ⊢
      have hle : (l.map (fun v => v.id)).foldr Nat.max 0 ≤
          ((l ++ [x]).map (fun v => v.id)).foldr Nat.max 0 :=
        Nat.le_of_succ_le_succ ih
      refine Nat.succ_le_succ (Nat.max_le.mpr ⟨Nat.le_max_left _ _, ?_⟩)
      exact le_trans hle (Nat.le_max_right _ _)

theorem ormGetVersion_ok {versions : List Version} {p : Version → Bool}
    {v : Version} (h : ormGetVersion versions p = .ok v) :
    v ∈ versions ∧ p v = true := by
  unfold ormGetVersion at h
  cases hf : versions.filter p with
  | nil => rw [hf] at h; cases h
  | cons a l =>
      cases l with
      | nil =>
          rw [hf] at h
          have ha : a ∈ versions.filter p := by
            rw [hf]; exact List.mem_cons_self _ _
          obtain ⟨h1, h2⟩ := List.mem_filter.mp ha
          cases h
          exact ⟨h1, h2⟩
      | cons b m => rw [hf] at h; cases h

/-- The row the fork writes for a copied version: fresh key, geneset rebound
to the target, every other column (including the parent pointer) taken from
the copied row. -/
def forkCopyRow (acc : List Version) (targetGs : Nat) (cur : Version) :
    Version :=
  { id := nextVersionId acc
    geneset := targetGs
    creator := cur.creator
    commit_date := cur.commit_date
    description := cur.description
    ver_hash := cur.ver_hash
    parent := cur.parent
    annotations := cur.annotations }

theorem versionSave_fork_row (acc : List Version) (targetGs : Nat)
    (cur : Version) (pid : Nat) (hp : cur.parent = some pid) :
    versionSave acc false 0 { cur with geneset := targetGs } =
      .ok (acc ++ [forkCopyRow acc targetGs cur]) := by
  cases cur with
  | mk i g c cd d vh par ann =>
      simp only at hp
      subst hp
      unfold versionSave forkCopyRow
      rw [show (((some pid : Option Nat) == none) = false) from rfl,
        Bool.false_and]
      rw [if_neg (by simp)]
      rfl

theorem versionSave_fork_root (acc : List Version) (targetGs : Nat)
    (cur : Version)
    (hnone : acc.any (fun w => w.geneset == targetGs) = false) :
    versionSave acc false 0 { cur with geneset := targetGs } =
      .ok (acc ++ [forkCopyRow acc targetGs cur]) := by
  cases cur with
  | mk i g c cd d vh par ann =>
      unfold versionSave forkCopyRow
      simp only
      rw [hnone, Bool.and_false]
      rw [if_neg (by simp)]
      rfl

/-- The per-ancestor relation the fork establishes between an original
version and its copy: rebound geneset, same payload, creator, commit date
and hash — and the parent pointer kept equal to the original's parent (not
re-linked to the copies). -/
def ForkCopyRel (origTable : List Version) (targetGs : Nat)
    (a cop : Version) : Prop :=
  cop.geneset = targetGs ∧ cop.annotations = a.annotations ∧
  cop.creator = a.creator ∧ cop.commit_date = a.commit_date ∧
  cop.parent = a.parent ∧ cop.ver_hash = a.ver_hash ∧
  cop.description = a.description ∧
  ∀ w ∈ origTable, w.id ≠ cop.id

theorem forkCopyRow_rel (orig acc : List Version) (targetGs : Nat)
    (cur : Version) (hfresh : ∀ w ∈ orig, w.id < nextVersionId acc) :
    ForkCopyRel orig targetGs cur (forkCopyRow acc targetGs cur) := by
  refine ⟨rfl, rfl, rfl, rfl, rfl, rfl, rfl, ?_⟩
  intro w hw
  exact Nat.ne_of_lt (hfresh w hw)

theorem fork_loop_spec (orig : List Version) (targetGs : Nat) :
    ∀ (fuel : Nat) (cur : Version) (chain : List Version)
      (acc result : List Version),
      ancestorsExceptRoot orig fuel cur = some chain →
      fork_loop orig targetGs fuel acc cur = .ok result →
      (∀ w ∈ orig, w.id < nextVersionId acc) →
      ∃ copies, result = acc ++ copies ∧
        List.Forall₂ (ForkCopyRel orig targetGs) chain copies := by
  intro fuel
  induction fuel with
  | zero =>
      intro cur chain acc result hch hfl hfresh
      cases hp : cur.parent with
      | none =>
          unfold ancestorsExceptRoot at hch
          rw [hp] at hch
          unfold fork_loop at hfl
          rw [hp] at hfl
          have hc : chain = [] := by cases hch; rfl
          have hr : result = acc := by cases hfl; rfl
          subst hc
          subst hr
          exact ⟨[], by simp, List.Forall₂.nil⟩
      | some pid =>
          unfold ancestorsExceptRoot at hch
          rw [hp] at hch
          cases hch
  | succ fuel ih =>
      intro cur chain acc result hch hfl hfresh
      cases hp : cur.parent with
      | none =>
          unfold ancestorsExceptRoot at hch
          rw [hp] at hch
          unfold fork_loop at hfl
          rw [hp] at hfl
          have hc : chain = [] := by cases hch; rfl
          have hr : result = acc := by cases hfl; rfl
          subst hc
          subst hr
          exact ⟨[], by simp, List.Forall₂.nil⟩
      | some pid =>
          unfold ancestorsExceptRoot at hch
          unfold fork_loop at hfl
          simp only [hp] at hch hfl
          cases hg : ormGetVersion orig (fun w => w.id == pid) with
          | error e =>
              rw [hg] at hch
              dsimp only at hch
              cases hch
          | ok p =>
              rw [hg] at hch hfl
              dsimp only at hch
              rw [← hp] at hfl
              rw [versionSave_fork_row acc targetGs cur pid hp] at hfl
              dsimp only at hfl
              cases hch2 : ancestorsExceptRoot orig fuel p with
              | none =>
                  rw [hch2] at hch
                  simp only [Option.map_none'] at hch
                  cases hch
              | some chain2 =>
                  rw [hch2] at hch
                  simp only [Option.map_some', Option.some_inj] at hch
                  subst hch
                  have hfresh2 : ∀ w ∈ orig, w.id < nextVersionId (acc ++
                      [forkCopyRow acc targetGs cur]) :=
                    fun w hw => lt_of_lt_of_le (hfresh w hw)
                      (nextVersionId_le_append acc _)
                  obtain ⟨copies2, heq, hfa⟩ :=
                    ih p chain2 _ result hch2 hfl hfresh2
                  refine ⟨forkCopyRow acc targetGs cur :: copies2, ?_, ?_⟩
                  · rw [heq, List.append_assoc]
                    rfl
                  · exact List.Forall₂.cons
                      (forkCopyRow_rel orig acc targetGs cur hfresh) hfa

/-- C1 (amended): forking a source collection at the version resolved by
`fork_version` copies that version and every ancestor up to and including
the root into the (fresh) target collection; every copy has a new identity,
the same annotation content, creator, original commit date, hash and
description, and has its geneset rebound to the target — but its parent
pointer is kept equal to the original's parent, so the copied rows still
reference the source collection's versions instead of being re-linked to
the corresponding copies. -/
theorem fork_copies_lineage
    (versions : List Version) (sourceGs targetGs : Nat) (h : String)
    (root fv : Version) (chain result : List Version)
    (hroot : ormGetVersion versions
      (fun w => w.geneset == sourceGs && w.parent == none) = .ok root)
    (hfv : ormGetVersion versions
      (fun w => w.geneset == sourceGs && w.ver_hash == h) = .ok fv)
    (hchain : ancestorsExceptRoot versions versions.length fv = some chain)
    (hfresh : ∀ w ∈ versions, w.geneset ≠ targetGs)
    (hres : fork_versions versions sourceGs targetGs h = .ok result) :
    ∃ copies, result = versions ++ copies ∧
      List.Forall₂ (ForkCopyRel versions targetGs) (root :: chain) copies := by
  have hanyt : versions.any (fun w => w.geneset == targetGs) = false := by
    rw [List.any_eq_false]
    intro w hw
    simpa using hfresh w hw
  have hred : fork_versions versions sourceGs targetGs h =
      fork_loop versions targetGs versions.length
        (versions ++ [forkCopyRow versions targetGs root]) fv := by
    unfold fork_versions
    rw [hroot]
    simp only [versionSave_fork_root versions targetGs root hanyt, hfv]
  rw [hred] at hres
  have hfr1 : ∀ w ∈ versions, w.id < nextVersionId
      (versions ++ [forkCopyRow versions targetGs root]) :=
    fun w hw => lt_of_lt_of_le (version_id_lt_nextVersionId versions w hw)
      (nextVersionId_le_append versions _)
  obtain ⟨copies2, heq, hfa⟩ := fork_loop_spec versions targetGs
    versions.length fv chain _ result hchain hres hfr1
  refine ⟨forkCopyRow versions targetGs root :: copies2, ?_, ?_⟩
  · rw [heq, List.append_assoc]
    rfl
  · exact List.Forall₂.cons
      (forkCopyRow_rel versions versions targetGs root
        (version_id_lt_nextVersionId versions)) hfa

/-- The copy of the root written by the concrete fork example. -/
def exForkRootCopy : Version := { exVersionA with id := 3, geneset := 20 }

/-- The copy of the forked version written by the concrete fork example:
its parent pointer still holds 1, the primary key of the root in the source
collection, not 3, the key of the copied root. -/
def exForkChildCopy : Version := { exVersionB with id := 4, geneset := 20 }

/-- C1 counterexample: forking collection 10 at version hash "bbb" into the
fresh collection 20 copies both versions, but the copied child's parent
pointer is 1 — the source collection's root — while the copied root has key
3: the parent chain is not re-linked to the copies, so the copied lineage
references a version of the source collection, contrary to the claim. -/
theorem fork_parents_not_relinked :
    fork_versions [exVersionA, exVersionB] 10 20 "bbb" =
      .ok [exVersionA, exVersionB, exForkRootCopy, exForkChildCopy] ∧
    exForkChildCopy.geneset = 20 ∧
    exForkChildCopy.parent = some 1 ∧
    exVersionA.id = 1 ∧
    exVersionA.geneset = 10 ∧
    exForkRootCopy.id = 3 := by
  refine ⟨by decide, by decide, by decide, by decide, by decide, by decide⟩

/-- Witness for C1 (amended) at the concrete two-version store: the fork
writes copies related to the source chain (child then root) exactly as the
amended claim states. -/
theorem fork_copies_lineage_witness :
    ∃ copies, [exVersionA, exVersionB, exForkRootCopy, exForkChildCopy] =
      [exVersionA, exVersionB] ++ copies ∧
      List.Forall₂ (ForkCopyRel [exVersionA, exVersionB] 20)
        (exVersionA :: [exVersionB]) copies :=
  fork_copies_lineage [exVersionA, exVersionB] 10 20 "bbb" exVersionA
    exVersionB [exVersionB]
    [exVersionA, exVersionB, exForkRootCopy, exForkChildCopy]
    (by decide) (by decide) (by decide) (by decide) (by decide)

end Tribe
